import Mathlib

/-!
Verification development for the `antigravity-auth` plugin core
(`src/plugins/antigravity-auth/lib/{account-manager,models,quota,request-transform}.ts`).

The TypeScript sources are shallowly embedded as executable Lean definitions:
* timestamps (`Date.now()`) become an explicit `now : Nat` argument;
* in-place mutation of the `AccountManager` class becomes explicit state
  passing on an `MState` record, with accounts identified by their position
  in the pool list (object references in JS);
* `Partial<Record<QuotaKey, number>>` becomes a record of four `Option Nat`
  fields (a deleted key is `none`);
* JS `undefined` results become `Option`.
-/

namespace JsString

/-!
JS string primitives, implemented over `List Char` so that every concrete
computation reduces inside the kernel (`decide`/`rfl`).
-/

/-- JS ASCII whitespace (the inputs here never use the Unicode spaces that
`String.prototype.trim` also strips). -/
def isWs (c : Char) : Bool := c = ' ' ∨ c = '\t' ∨ c = '\n' ∨ c = '\r'

/-- `s.trim()` -/
def jsTrim (s : String) : String :=
  String.mk (((s.toList.dropWhile isWs).reverse.dropWhile isWs).reverse)

/-- `s.startsWith(p)` -/
def jsStartsWith (s p : String) : Bool := p.toList.isPrefixOf s.toList

/-- `s.endsWith(p)` -/
def jsEndsWith (s p : String) : Bool := p.toList.isSuffixOf s.toList

/-- `s.slice(n)` for `n ≥ 0` -/
def jsDrop (s : String) (n : Nat) : String := String.mk (s.toList.drop n)

/-- `s.includes(sub)` -/
def jsIncludes (s sub : String) : Bool :=
  (List.range (s.toList.length + 1)).any (fun i => sub.toList.isPrefixOf (s.toList.drop i))

/-- `s.split(c)` for a one-character separator (JS semantics:
`"a\n".split("\n") = ["a", ""]`, `"".split("\n") = [""]`). -/
def splitOnChar (c : Char) : List Char → List (List Char)
  | [] => [[]]
  | x :: rest =>
      match splitOnChar c rest with
      | [] => [[]]
      | h :: t => if x = c then [] :: h :: t else (x :: h) :: t

/-- `Array.prototype.join` / `String.intercalate`. -/
def strIntercalate (sep : String) : List String → String
  | [] => ""
  | h :: t => t.foldl (fun acc s => acc ++ sep ++ s) h

end JsString

namespace AccountManager

/-- `type ModelFamily = 'claude' | 'gemini'` -/
inductive ModelFamily where
  | claude
  | gemini
deriving DecidableEq, Repr

/-- `type HeaderStyle = 'antigravity' | 'gemini-cli'` -/
inductive HeaderStyle where
  | antigravity
  | geminiCli
deriving DecidableEq, Repr

/-- `type RequestType = 'claude' | 'gemini' | 'image_gen'` -/
inductive RequestType where
  | claude
  | gemini
  | imageGen
deriving DecidableEq, Repr

/-- `type QuotaKey = 'claude' | 'gemini-antigravity' | 'gemini-cli' | 'gemini-image'` -/
inductive QuotaKey where
  | claude
  | geminiAntigravity
  | geminiCli
  | geminiImage
deriving DecidableEq, Repr

/-- `type RateLimitReason = 'quota_exhausted' | 'rate_limit_exceeded' | 'server_error' | 'unknown'` -/
inductive RateLimitReason where
  | quotaExhausted
  | rateLimitExceeded
  | serverError
  | unknown
deriving DecidableEq, Repr

/-- `RATE_LIMIT_DEFAULTS` (cooldown in ms per reason). -/
def RATE_LIMIT_DEFAULTS : RateLimitReason → Nat
  | .quotaExhausted => 60 * 60 * 1000
  | .rateLimitExceeded => 30 * 1000
  | .serverError => 20 * 1000
  | .unknown => 60 * 1000

/-- `rateLimitResetTimes: Partial<Record<QuotaKey, number>>` —
one optional absolute reset timestamp per quota key. -/
structure RateLimitResetTimes where
  claude : Option Nat := none
  geminiAntigravity : Option Nat := none
  geminiCli : Option Nat := none
  geminiImage : Option Nat := none
deriving DecidableEq, Repr, Inhabited

/-- Read `rateLimitResetTimes[key]`. -/
def RateLimitResetTimes.get (r : RateLimitResetTimes) : QuotaKey → Option Nat
  | .claude => r.claude
  | .geminiAntigravity => r.geminiAntigravity
  | .geminiCli => r.geminiCli
  | .geminiImage => r.geminiImage

/-- Write `rateLimitResetTimes[key] = v` (a `none` value models `delete`). -/
def RateLimitResetTimes.set (r : RateLimitResetTimes) : QuotaKey → Option Nat → RateLimitResetTimes
  | .claude, v => { r with claude := v }
  | .geminiAntigravity, v => { r with geminiAntigravity := v }
  | .geminiCli, v => { r with geminiCli := v }
  | .geminiImage, v => { r with geminiImage := v }

/-- `lastSwitchReason?: 'rate-limit' | 'initial' | 'rotation'` -/
inductive SwitchReason where
  | rateLimit
  | initial
  | rotation
deriving DecidableEq, Repr

/-- `interface ManagedAccount` (token fields kept for fidelity; only
`index`, `lastUsed`, `rateLimitResetTimes` and `lastSwitchReason` are
touched by the operations verified here). -/
structure ManagedAccount where
  index : Nat
  email : Option String := none
  projectId : String := ""
  refreshToken : String := ""
  accessToken : Option String := none
  expiresAt : Option Nat := none
  addedAt : Nat := 0
  lastUsed : Nat := 0
  rateLimitResetTimes : RateLimitResetTimes := {}
  lastSwitchReason : Option SwitchReason := none
deriving DecidableEq, Repr, Inhabited

/-- The mutable state of the `AccountManager` class: the pool, the rotation
cursor and the per-family current pointer (`-1` = none selected). -/
structure MState where
  accounts : List ManagedAccount := []
  cursor : Nat := 0
  currentClaude : Int := -1
  currentGemini : Int := -1
deriving DecidableEq, Repr, Inhabited

/-- Read `currentAccountIndexByFamily[family]`. -/
def MState.currentIndex (s : MState) : ModelFamily → Int
  | .claude => s.currentClaude
  | .gemini => s.currentGemini

/-- Write `currentAccountIndexByFamily[family] = v`. -/
def MState.setCurrentIndex (s : MState) : ModelFamily → Int → MState
  | .claude, v => { s with currentClaude := v }
  | .gemini, v => { s with currentGemini := v }

/-- Replace the account object at position `p` of the pool (models in-place
mutation of the JS object held in `this.accounts[p]`). -/
def MState.setAccount (s : MState) (p : Nat) (a : ManagedAccount) : MState :=
  { s with accounts := s.accounts.set p a }

/-- `getQuotaKey(family, headerStyle, requestType)` -/
def getQuotaKey (family : ModelFamily) (headerStyle : HeaderStyle)
    (requestType : Option RequestType) : QuotaKey :=
  if family = .claude then .claude
  else if requestType = some .imageGen then .geminiImage
  else if headerStyle = .geminiCli then .geminiCli
  else .geminiAntigravity

/-- `isRateLimitedForQuotaKey`: the key has a recorded reset time strictly in
the future. -/
def isRateLimitedForQuotaKey (account : ManagedAccount) (key : QuotaKey) (now : Nat) : Bool :=
  match account.rateLimitResetTimes.get key with
  | some resetTime => now < resetTime
  | none => false

/-- `isRateLimitedForFamily`: claude checks its single key; gemini is limited
only when BOTH header-style keys are limited. -/
def isRateLimitedForFamily (account : ManagedAccount) (family : ModelFamily) (now : Nat) : Bool :=
  match family with
  | .claude => isRateLimitedForQuotaKey account .claude now
  | .gemini =>
      isRateLimitedForQuotaKey account .geminiAntigravity now &&
      isRateLimitedForQuotaKey account .geminiCli now

/-- Drop a recorded reset time that has already passed (`now >= resetTime`). -/
def clearExpiredEntry (now : Nat) : Option Nat → Option Nat
  | some t => if now ≥ t then none else some t
  | none => none

/-- `clearExpiredRateLimits`: delete every key whose reset time has passed. -/
def clearExpiredRateLimits (now : Nat) (account : ManagedAccount) : ManagedAccount :=
  { account with
    rateLimitResetTimes :=
      { claude := clearExpiredEntry now account.rateLimitResetTimes.claude
        geminiAntigravity := clearExpiredEntry now account.rateLimitResetTimes.geminiAntigravity
        geminiCli := clearExpiredEntry now account.rateLimitResetTimes.geminiCli
        geminiImage := clearExpiredEntry now account.rateLimitResetTimes.geminiImage } }

/-- `getCurrentAccountForFamily` — returns the position of the current
account for the family when the pointer is within `[0, accounts.length)`. -/
def getCurrentAccountForFamily (s : MState) (family : ModelFamily) : Option Nat :=
  let index := s.currentIndex family
  if 0 ≤ index ∧ index < (s.accounts.length : Int) then some index.toNat else none

/-- Positions of the accounts that survive the `getNextForFamily` filter
(not rate-limited for the family, after lazy expiry). -/
def availablePositions (accounts : List ManagedAccount) (family : ModelFamily) (now : Nat) :
    List Nat :=
  (List.range accounts.length).filter
    (fun i => !isRateLimitedForFamily (accounts.getD i default) family now)

/-- `getNextForFamily`: lazily expire every account's stale entries, filter
out the rate-limited ones, pick `available[cursor % available.length]`,
advance the cursor and stamp `lastUsed`. Returns the winner's position. -/
def getNextForFamily (s : MState) (family : ModelFamily) (now : Nat) :
    Option Nat × MState :=
  let cleared := s.accounts.map (clearExpiredRateLimits now)
  let s1 := { s with accounts := cleared }
  let avail := availablePositions cleared family now
  if avail.length = 0 then
    (none, s1)
  else
    -- `available[this.cursor % available.length]` always exists since the
    -- modulus is < length; the `if (!account) return null` branch is dead.
    let p := avail.getD (s1.cursor % avail.length) 0
    let s2 := { s1 with cursor := s1.cursor + 1 }
    (some p, s2.setAccount p { cleared.getD p default with lastUsed := now })

/-- The fall-through of `getCurrentOrNextForFamily` once the current account
is rate-limited (or absent): rotate via `getNextForFamily`, move the family
pointer to the winner's `index` field and stamp `lastSwitchReason`. -/
def rotateForFamily (s : MState) (family : ModelFamily) (now : Nat) :
    Option Nat × MState :=
  match getNextForFamily s family now with
  | (some p, s') =>
      let a := s'.accounts.getD p default
      let s2 := (s'.setAccount p { a with lastSwitchReason := some .rateLimit }).setCurrentIndex
        family (a.index : Int)
      (some p, s2)
  | (none, s') => (none, s')

/-- `getCurrentOrNextForFamily`: return the current account if it is not
rate-limited (after lazy expiry), else rotate to the next available one. -/
def getCurrentOrNextForFamily (s : MState) (family : ModelFamily) (now : Nat) :
    Option Nat × MState :=
  match getCurrentAccountForFamily s family with
  | some p =>
      match s.accounts[p]? with
      | some a =>
          let a' := clearExpiredRateLimits now a
          let s1 := s.setAccount p a'
          if isRateLimitedForFamily a' family now then
            rotateForFamily s1 family now
          else
            (some p, s1.setAccount p { a' with lastUsed := now })
      | none => rotateForFamily s family now
  | none => rotateForFamily s family now

/-- `getAvailableHeaderStyle`: claude needs its single key free; gemini
prefers `antigravity` and falls back to `gemini-cli`. -/
def getAvailableHeaderStyle (account : ManagedAccount) (family : ModelFamily) (now : Nat) :
    Option HeaderStyle :=
  let a := clearExpiredRateLimits now account
  match family with
  | .claude =>
      if isRateLimitedForQuotaKey a .claude now then none else some .antigravity
  | .gemini =>
      if !isRateLimitedForQuotaKey a .geminiAntigravity now then some .antigravity
      else if !isRateLimitedForQuotaKey a .geminiCli now then some .geminiCli
      else none

/-- `markRateLimited` applied to the account at position `p`. -/
def markRateLimited (s : MState) (p : Nat) (retryAfterMs : Option Nat)
    (family : ModelFamily) (headerStyle : HeaderStyle) (requestType : Option RequestType)
    (reason : RateLimitReason) (now : Nat) : MState :=
  let key := getQuotaKey family headerStyle requestType
  let delay := retryAfterMs.getD (RATE_LIMIT_DEFAULTS reason)
  let a := s.accounts.getD p default
  s.setAccount p
    { a with rateLimitResetTimes := a.rateLimitResetTimes.set key (some (now + delay)) }

/-- `removeAccount(index)`: splice out the account, re-densify the `index`
fields, and repair the family pointers and the cursor. -/
def removeAccount (s : MState) (index : Int) : Bool × MState :=
  if index < 0 ∨ (s.accounts.length : Int) ≤ index then
    (false, s)
  else
    let accounts := (s.accounts.eraseIdx index.toNat).mapIdx
      (fun i a => { a with index := i })
    if accounts.length = 0 then
      (true, { accounts := accounts, cursor := 0, currentClaude := -1, currentGemini := -1 })
    else
      let repair : Int → Int := fun ptr =>
        let ptr := if ptr ≥ index then max 0 (ptr - 1) else ptr
        min ptr ((accounts.length : Int) - 1)
      (true,
        { accounts := accounts
          cursor := min s.cursor (accounts.length - 1)
          currentClaude := repair s.currentClaude
          currentGemini := repair s.currentGemini })

/-- `allAccountsRateLimited(family)` (the lazy expiry inside `every` does not
change the verdict at a fixed `now`, see `isRateLimitedForFamily_clear`). -/
def allAccountsRateLimited (s : MState) (family : ModelFamily) (now : Nat) : Bool :=
  s.accounts.all (fun a => isRateLimitedForFamily (clearExpiredRateLimits now a) family now)

/-- Per-account wait used by `getMinWaitTime`: a `none` models the `Infinity`
placeholder that keeps the account out of the `waitTimes` list. -/
def accountWait (a : ManagedAccount) (family : ModelFamily) (now : Nat) : Option Nat :=
  match family with
  | .claude => a.rateLimitResetTimes.claude.map (fun t => t - now)
  | .gemini =>
      match a.rateLimitResetTimes.geminiAntigravity.map (fun t => t - now),
            a.rateLimitResetTimes.geminiCli.map (fun t => t - now) with
      | some w1, some w2 => some (min w1 w2)
      | some w1, none => some w1
      | none, some w2 => some w2
      | none, none => none

/-- `getMinWaitTime(family)`: minimum of the recorded per-account waits, `0`
when no account recorded anything (`Math.max(0, t - now)` is `Nat` sub). -/
def getMinWaitTime (s : MState) (family : ModelFamily) (now : Nat) : Nat :=
  let waitTimes := s.accounts.filterMap (fun a => accountWait a family now)
  waitTimes.min?.getD 0

/-!
## Duration-string parsing (`parseDurationString`)

The source matches the unanchored regex
`(?:(\d+)h)?(?:(\d+)m)?(?:(\d+(?:\.\d+)?)s)?(?:(\d+)ms)?` against the input.
Since every group is optional the regex always yields its leftmost match, at
position 0, and a group either consumes `digits ++ literal` greedily or is
skipped (the engine never backtracks into an earlier group because the
overall match cannot fail).  We model this word for word.
-/

/-- Numeric value of a digit run, as `parseInt` would give. -/
def digitsToNat (ds : List Char) : Nat :=
  ds.foldl (fun n c => n * 10 + (c.toNat - 48)) 0

/-- One regex group `(?:(\d+)lit)?`: greedily take digits, require the
literal right after, otherwise skip the group and restore the position. -/
def groupIntLit (lit : List Char) (cs : List Char) : Option Nat × List Char :=
  let ds := cs.takeWhile Char.isDigit
  let rest := cs.dropWhile Char.isDigit
  if ds.isEmpty then (none, cs)
  else if lit.isPrefixOf rest then (some (digitsToNat ds), rest.drop lit.length)
  else (none, cs)

/-- The group `(?:(\d+(?:\.\d+)?)s)?`.  The result carries the integer part
and whether the fractional part is strictly positive (all `parseFloat` and
`Math.ceil` need afterwards). -/
def groupSecondsLit (cs : List Char) : Option (Nat × Bool) × List Char :=
  let ds := cs.takeWhile Char.isDigit
  let rest := cs.dropWhile Char.isDigit
  if ds.isEmpty then (none, cs)
  else
    match rest with
    | '.' :: rest2 =>
        let fs := rest2.takeWhile Char.isDigit
        let rest3 := rest2.dropWhile Char.isDigit
        if fs.isEmpty then (none, cs)
        else
          match rest3 with
          | 's' :: rest4 => (some (digitsToNat ds, fs.any (· ≠ '0')), rest4)
          | _ => (none, cs)
    | 's' :: rest2 => (some (digitsToNat ds, false), rest2)
    | _ => (none, cs)

/-- The account currently has an unexpired reset time recorded for `key`
(the claim-level reading of "rate-limited on a style"). -/
def styleBlocked (a : ManagedAccount) (key : QuotaKey) (now : Nat) : Prop :=
  ∃ t, a.rateLimitResetTimes.get key = some t ∧ now < t

/-- Both gemini header-style keys have unexpired reset times. -/
def bothStylesBlocked (a : ManagedAccount) (now : Nat) : Prop :=
  styleBlocked a .geminiAntigravity now ∧ styleBlocked a .geminiCli now

/-- The round-robin experiment's marking step: mark the account at position
`p` rate-limited for family B on BOTH header-style keys (two
`markRateLimited` calls, default `unknown` cooldown). -/
def markBothGemini (s : MState) (p : Nat) (now : Nat) : MState :=
  markRateLimited (markRateLimited s p none .gemini .antigravity none .unknown now)
    p none .gemini .geminiCli none .unknown now

/-- One acquisition via `getCurrentOrNextForFamily('gemini')` immediately
followed by marking the returned account rate-limited on both keys. -/
def acquireAndMark (s : MState) (now : Nat) : Option Nat × MState :=
  match getCurrentOrNextForFamily s .gemini now with
  | (some p, s') => (some p, markBothGemini s' p now)
  | (none, s') => (none, s')

/-- `n` consecutive acquire-then-mark rounds, collecting the positions of
the returned accounts. -/
def rotationRun : Nat → MState → Nat → List Nat × MState
  | 0, s, _ => ([], s)
  | n + 1, s, now =>
      match acquireAndMark s now with
      | (some p, s') =>
          let rest := rotationRun n s' now
          (p :: rest.1, rest.2)
      | (none, s') => ([], s')

/-- `parseDurationString`: hours, minutes, seconds (ceiled), milliseconds;
a total of `0` is not a valid delay and yields `undefined` (`none`). -/
def parseDurationString (s : String) : Option Nat :=
  let cs := s.toList
  let (hours, cs) := groupIntLit ['h'] cs
  let (minutes, cs) := groupIntLit ['m'] cs
  let (seconds, cs) := groupSecondsLit cs
  let (milliseconds, _) := groupIntLit ['m', 's'] cs
  let hours := hours.getD 0
  let minutes := minutes.getD 0
  let ceilSeconds :=
    match seconds with
    | some (n, fracPos) => n + (if fracPos then 1 else 0)
    | none => 0
  let totalMs := (hours * 3600 + minutes * 60 + ceilSeconds) * 1000 + (milliseconds.getD 0)
  if totalMs > 0 then some totalMs else none

end AccountManager

namespace Models

/-!
## Model catalog and routing (`models.ts`)

The module-level mutable `customModelMapping` object becomes an explicit
`custom : List (String × String)` argument (iteration order of
`Object.entries` on the patterns used here is insertion order).  JS object
lookups guarded by truthiness (`if (map[k])`) become a lookup plus a
non-empty-string guard.
-/

/-- `MODEL_MAPPING` as an insertion-ordered association list. -/
def MODEL_MAPPING : List (String × String) := [
  ("claude-opus-4-5-thinking", "claude-opus-4-5-thinking"),
  ("claude-sonnet-4-5", "claude-sonnet-4-5"),
  ("claude-sonnet-4-5-thinking", "claude-sonnet-4-5-thinking"),
  ("claude-sonnet-4-5-20250929", "claude-sonnet-4-5-thinking"),
  ("claude-3-5-sonnet-20241022", "claude-sonnet-4-5"),
  ("claude-3-5-sonnet-20240620", "claude-sonnet-4-5"),
  ("claude-opus-4", "claude-opus-4-5-thinking"),
  ("claude-opus-4-5-20251101", "claude-opus-4-5-thinking"),
  ("claude-haiku-4", "claude-sonnet-4-5"),
  ("claude-3-haiku-20240307", "claude-sonnet-4-5"),
  ("claude-haiku-4-5-20251001", "claude-sonnet-4-5"),
  ("gpt-4", "gemini-2.5-flash"),
  ("gpt-4-turbo", "gemini-2.5-flash"),
  ("gpt-4-turbo-preview", "gemini-2.5-flash"),
  ("gpt-4-0125-preview", "gemini-2.5-flash"),
  ("gpt-4-1106-preview", "gemini-2.5-flash"),
  ("gpt-4-0613", "gemini-2.5-flash"),
  ("gpt-4o", "gemini-2.5-flash"),
  ("gpt-4o-2024-05-13", "gemini-2.5-flash"),
  ("gpt-4o-2024-08-06", "gemini-2.5-flash"),
  ("gpt-4o-mini", "gemini-2.5-flash"),
  ("gpt-4o-mini-2024-07-18", "gemini-2.5-flash"),
  ("gpt-3.5-turbo", "gemini-2.5-flash"),
  ("gpt-3.5-turbo-16k", "gemini-2.5-flash"),
  ("gpt-3.5-turbo-0125", "gemini-2.5-flash"),
  ("gpt-3.5-turbo-1106", "gemini-2.5-flash"),
  ("gpt-3.5-turbo-0613", "gemini-2.5-flash"),
  ("gemini-2.5-flash-lite", "gemini-2.5-flash-lite"),
  ("gemini-2.5-flash-thinking", "gemini-2.5-flash-thinking"),
  ("gemini-3-pro-low", "gemini-3-pro-preview"),
  ("gemini-3-pro-high", "gemini-3-pro-preview"),
  ("gemini-3-pro-preview", "gemini-3-pro-preview"),
  ("gemini-3-pro", "gemini-3-pro-preview"),
  ("gemini-2.5-flash", "gemini-2.5-flash"),
  ("gemini-3-flash", "gemini-3-flash"),
  ("gemini-3-pro-image", "gemini-3-pro-image"),
  ("gemini-2.0-flash-exp", "gemini-2.0-flash-exp")]

/-- JS `map[key]` returning `undefined` for an absent key. -/
def jsLookup (table : List (String × String)) (key : String) : Option String :=
  (table.find? (fun kv => kv.1 = key)).map (·.2)

/-- Truthiness guard `if (map[key])`: present and not the empty string. -/
def jsLookupTruthy (table : List (String × String)) (key : String) : Option String :=
  match jsLookup table key with
  | some v => if v = "" then none else some v
  | none => none

/-- `wildcardMatch(pattern, text)`: split the pattern at its FIRST `*`
(`indexOf`) into prefix/suffix and test both ends of the text. -/
def wildcardMatch (pattern text : String) : Bool :=
  let cs := pattern.toList
  let starPos := (cs.takeWhile (· ≠ '*')).length
  if starPos = cs.length then pattern = text
  else
    let pre := String.mk (cs.take starPos)
    let suf := String.mk (cs.drop (starPos + 1))
    JsString.jsStartsWith text pre && JsString.jsEndsWith text suf

/-- `mapModelToTarget(input)`: exact `MODEL_MAPPING` entry, else pass
through gemini/thinking ids, else the default model. -/
def mapModelToTarget (input : String) : String :=
  match jsLookupTruthy MODEL_MAPPING input with
  | some t => t
  | none =>
      if JsString.jsStartsWith input "gemini-" ∨ JsString.jsIncludes input "thinking" then input
      else "claude-sonnet-4-5"

/-- First custom entry whose pattern contains `*` and wildcard-matches the
model (the `for ... of Object.entries` scan). -/
def firstWildcardTarget (custom : List (String × String)) (originalModel : String) :
    Option String :=
  (custom.find? (fun kv => kv.1.toList.contains '*' && wildcardMatch kv.1 originalModel)).map (·.2)

/-- `resolveModelRoute(originalModel)` with the mutable custom table passed
explicitly: custom exact match, then custom wildcard match, then the system
default mapping. -/
def resolveModelRoute (custom : List (String × String)) (originalModel : String) : String :=
  match jsLookupTruthy custom originalModel with
  | some t => t
  | none =>
      match firstWildcardTarget custom originalModel with
      | some t => t
      | none => mapModelToTarget originalModel

/-- `thinking?: ThinkingLevel` -/
inductive ThinkingLevel where
  | none
  | low
  | medium
  | high
deriving DecidableEq, Repr

/-- The fields of `AntigravityModelInfo` that the routing functions read
(display-only fields — `name`, `description`, `contextWindow`,
`maxOutputTokens`, capability flags — are omitted). -/
structure AntigravityModelInfo where
  id : String
  baseModel : String
  family : AccountManager.ModelFamily
  thinking : Option ThinkingLevel := Option.none
  thinkingBudget : Option Nat := Option.none
deriving DecidableEq, Repr

/-- `generateImageModels()`: the 3 × 7 cross product of resolution and
aspect-ratio suffixes on `gemini-3-pro-image`. -/
def generateImageModels : List AntigravityModelInfo :=
  let base := "gemini-3-pro-image"
  let resolutions := ["", "-2k", "-4k"]
  let ratios := ["", "-1x1", "-4x3", "-3x4", "-16x9", "-9x16", "-21x9"]
  resolutions.flatMap (fun res =>
    ratios.map (fun ratio =>
      { id := base ++ res ++ ratio
        baseModel := base
        family := .gemini : AntigravityModelInfo }))

/-- `ANTIGRAVITY_MODELS` (id/baseModel/family/thinking data). -/
def ANTIGRAVITY_MODELS : List AntigravityModelInfo := [
  { id := "claude-sonnet-4-5-thinking", baseModel := "claude-sonnet-4-5-thinking",
    family := .claude, thinking := some .medium, thinkingBudget := some 16384 },
  { id := "claude-sonnet-4-5-thinking-high", baseModel := "claude-sonnet-4-5-thinking",
    family := .claude, thinking := some .high, thinkingBudget := some 32768 },
  { id := "claude-sonnet-4-5-thinking-low", baseModel := "claude-sonnet-4-5-thinking",
    family := .claude, thinking := some .low, thinkingBudget := some 8192 },
  { id := "claude-sonnet-4-5", baseModel := "claude-sonnet-4-5",
    family := .claude, thinking := some .none },
  { id := "claude-opus-4-5-thinking", baseModel := "claude-opus-4-5-thinking",
    family := .claude, thinking := some .medium, thinkingBudget := some 16384 },
  { id := "claude-opus-4-5-thinking-high", baseModel := "claude-opus-4-5-thinking",
    family := .claude, thinking := some .high, thinkingBudget := some 32768 },
  { id := "claude-opus-4-5-thinking-low", baseModel := "claude-opus-4-5-thinking",
    family := .claude, thinking := some .low, thinkingBudget := some 8192 },
  { id := "claude-sonnet-4-5-20250929", baseModel := "claude-sonnet-4-5-thinking",
    family := .claude, thinking := some .medium, thinkingBudget := some 16384 },
  { id := "claude-3-5-sonnet-20241022", baseModel := "claude-sonnet-4-5",
    family := .claude, thinking := some .none },
  { id := "claude-3-5-sonnet-20240620", baseModel := "claude-sonnet-4-5",
    family := .claude, thinking := some .none },
  { id := "claude-opus-4", baseModel := "claude-opus-4-5-thinking",
    family := .claude, thinking := some .medium, thinkingBudget := some 16384 },
  { id := "claude-opus-4-5-20251101", baseModel := "claude-opus-4-5-thinking",
    family := .claude, thinking := some .medium, thinkingBudget := some 16384 },
  { id := "claude-haiku-4", baseModel := "claude-sonnet-4-5",
    family := .claude, thinking := some .none },
  { id := "claude-3-haiku-20240307", baseModel := "claude-sonnet-4-5",
    family := .claude, thinking := some .none },
  { id := "claude-haiku-4-5-20251001", baseModel := "claude-sonnet-4-5",
    family := .claude, thinking := some .none },
  { id := "gpt-4", baseModel := "gemini-2.5-flash", family := .gemini },
  { id := "gpt-4-turbo", baseModel := "gemini-2.5-flash", family := .gemini },
  { id := "gpt-4-turbo-preview", baseModel := "gemini-2.5-flash", family := .gemini },
  { id := "gpt-4o", baseModel := "gemini-2.5-flash", family := .gemini },
  { id := "gpt-4o-mini", baseModel := "gemini-2.5-flash", family := .gemini },
  { id := "gpt-3.5-turbo", baseModel := "gemini-2.5-flash", family := .gemini },
  { id := "gemini-2.0-flash-exp", baseModel := "gemini-2.0-flash-exp", family := .gemini },
  { id := "gemini-2.5-flash", baseModel := "gemini-2.5-flash", family := .gemini },
  { id := "gemini-2.5-flash-lite", baseModel := "gemini-2.5-flash-lite", family := .gemini },
  { id := "gemini-2.5-flash-thinking", baseModel := "gemini-2.5-flash-thinking",
    family := .gemini },
  { id := "gemini-3-pro", baseModel := "gemini-3-pro-preview", family := .gemini },
  { id := "gemini-3-pro-low", baseModel := "gemini-3-pro-preview", family := .gemini },
  { id := "gemini-3-pro-high", baseModel := "gemini-3-pro-preview", family := .gemini },
  { id := "gemini-3-pro-preview", baseModel := "gemini-3-pro-preview", family := .gemini },
  { id := "gemini-3-flash", baseModel := "gemini-3-flash", family := .gemini }]
  ++ generateImageModels

/-- `stripProviderPrefix(modelId)`: drop everything up to the first `:`. -/
def stripProvider (modelId : String) : String :=
  let cs := modelId.toList
  let colonPos := (cs.takeWhile (· ≠ ':')).length
  if colonPos = cs.length then modelId
  else String.mk (cs.drop (colonPos + 1))

/-- `getModelInfo(modelId)`: find the catalog entry by id. -/
def getModelInfo (modelId : String) : Option AntigravityModelInfo :=
  let cleanId := stripProvider modelId
  ANTIGRAVITY_MODELS.find? (fun m => m.id = cleanId)

/-- `getBaseModelId(modelId)`: catalog entry's `baseModel` when the id is in
the static catalog, else `resolveModelRoute` on the cleaned id. -/
def getBaseModelId (custom : List (String × String)) (modelId : String) : String :=
  let cleanId := stripProvider modelId
  match getModelInfo cleanId with
  | some model => model.baseModel
  | none => resolveModelRoute custom cleanId

end Models

namespace Js

/-!
## JSON platform model

`JSON.parse` / `JSON.stringify` are host-runtime functions; we model the
fragment the transformed payloads live in: `null`, booleans, integer
numerals, strings (with the usual one-character escapes), arrays and
objects.  Duplicate object keys follow JS semantics (first position, last
value).  Property access `data.response` becomes `Json.getField`.
-/

inductive Json where
  | null
  | bool (b : Bool)
  | num (n : Int)
  | str (s : String)
  | arr (elems : List Json)
  | obj (members : List (String × Json))
deriving Inhabited

/-- JS truthiness of a parsed JSON value (`null`, `false`, `0` and `""` are
falsy; every object and array is truthy). -/
def Json.truthy : Json → Bool
  | .null => false
  | .bool b => b
  | .num n => n ≠ 0
  | .str s => s ≠ ""
  | .arr _ => true
  | .obj _ => true

/-- Property access `v[key]`: `undefined` unless `v` is an object with the
key. -/
def Json.getField : Json → String → Option Json
  | .obj members, key => (members.find? (fun kv => kv.1 = key)).map (·.2)
  | _, _ => none

/-- Insert with JS object semantics: an existing key keeps its position and
takes the new value, a new key is appended. -/
def insertKV (members : List (String × Json)) (key : String) (v : Json) :
    List (String × Json) :=
  if members.any (fun kv => kv.1 = key) then
    members.map (fun kv => if kv.1 = key then (key, v) else kv)
  else
    members ++ [(key, v)]

/-- JSON whitespace. -/
def skipWs (cs : List Char) : List Char :=
  cs.dropWhile (fun c => c = ' ' ∨ c = '\t' ∨ c = '\n' ∨ c = '\r')

/-- Body of a JSON string literal after the opening quote. -/
def parseStringBody (acc : List Char) : List Char → Option (String × List Char)
  | [] => none
  | '"' :: rest => some (String.mk acc.reverse, rest)
  | '\\' :: c :: rest =>
      match c with
      | '"' => parseStringBody ('"' :: acc) rest
      | '\\' => parseStringBody ('\\' :: acc) rest
      | '/' => parseStringBody ('/' :: acc) rest
      | 'n' => parseStringBody ('\n' :: acc) rest
      | 't' => parseStringBody ('\t' :: acc) rest
      | 'r' => parseStringBody ('\r' :: acc) rest
      | _ => none
  | c :: rest => parseStringBody (c :: acc) rest

mutual

/-- Parse one JSON value (fuel-indexed recursion). -/
def parseVal : Nat → List Char → Option (Json × List Char)
  | 0, _ => none
  | fuel + 1, cs =>
      match skipWs cs with
      | 'n' :: 'u' :: 'l' :: 'l' :: rest => some (.null, rest)
      | 't' :: 'r' :: 'u' :: 'e' :: rest => some (.bool true, rest)
      | 'f' :: 'a' :: 'l' :: 's' :: 'e' :: rest => some (.bool false, rest)
      | '"' :: rest => (parseStringBody [] rest).map (fun sr => (.str sr.1, sr.2))
      | '[' :: rest =>
          match skipWs rest with
          | ']' :: rest2 => some (.arr [], rest2)
          | rest2 => parseArrElems fuel rest2 []
      | '\x7b' :: rest =>
          match skipWs rest with
          | '\x7d' :: rest2 => some (.obj [], rest2)
          | rest2 => parseObjMembers fuel rest2 []
      | '-' :: rest =>
          let ds := rest.takeWhile Char.isDigit
          if ds.isEmpty then none
          else some (.num (-(AccountManager.digitsToNat ds : Int)),
            rest.dropWhile Char.isDigit)
      | cs' =>
          let ds := cs'.takeWhile Char.isDigit
          if ds.isEmpty then none
          else some (.num (AccountManager.digitsToNat ds : Int), cs'.dropWhile Char.isDigit)

/-- Comma-separated array elements up to `]`. -/
def parseArrElems : Nat → List Char → List Json → Option (Json × List Char)
  | 0, _, _ => none
  | fuel + 1, cs, acc =>
      match parseVal fuel cs with
      | some (v, rest) =>
          match skipWs rest with
          | ',' :: rest2 => parseArrElems fuel rest2 (v :: acc)
          | ']' :: rest2 => some (.arr (v :: acc).reverse, rest2)
          | _ => none
      | none => none

/-- Comma-separated `"key": value` members up to the closing brace. -/
def parseObjMembers : Nat → List Char → List (String × Json) →
    Option (Json × List Char)
  | 0, _, _ => none
  | fuel + 1, cs, acc =>
      match skipWs cs with
      | '"' :: rest =>
          match parseStringBody [] rest with
          | some (key, rest2) =>
              match skipWs rest2 with
              | ':' :: rest3 =>
                  match parseVal fuel rest3 with
                  | some (v, rest4) =>
                      match skipWs rest4 with
                      | ',' :: rest5 => parseObjMembers fuel rest5 (insertKV acc key v)
                      | '\x7d' :: rest5 => some (.obj (insertKV acc key v), rest5)
                      | _ => none
                  | none => none
              | _ => none
          | none => none
      | _ => none

end

/-- `JSON.parse`: the whole input must be one value plus trailing
whitespace. -/
def parseJson (s : String) : Option Json :=
  let cs := s.toList
  match parseVal (2 * cs.length + 2) cs with
  | some (v, rest) => if skipWs rest = [] then some v else none
  | none => none

/-- String-literal escaping as `JSON.stringify` performs it. -/
def escapeString (s : String) : String :=
  s.toList.foldl
    (fun acc c =>
      acc ++ match c with
        | '"' => "\\\""
        | '\\' => "\\\\"
        | '\n' => "\\n"
        | '\r' => "\\r"
        | '\t' => "\\t"
        | _ => String.mk [c])
    ""

mutual

/-- `JSON.stringify` (compact form, no spaces, insertion key order). -/
def stringify : Json → String
  | .null => "null"
  | .bool true => "true"
  | .bool false => "false"
  | .num n => toString n
  | .str s => "\"" ++ escapeString s ++ "\""
  | .arr elems => "[" ++ JsString.strIntercalate "," (stringifyItems elems) ++ "]"
  | .obj members => "\x7b" ++ JsString.strIntercalate "," (stringifyMembers members) ++ "\x7d"

def stringifyItems : List Json → List String
  | [] => []
  | v :: rest => stringify v :: stringifyItems rest

def stringifyMembers : List (String × Json) → List String
  | [] => []
  | (k, v) :: rest => ("\"" ++ escapeString k ++ "\":" ++ stringify v) :: stringifyMembers rest

end

end Js

namespace Transform

open Js

/-!
## Response transformation (`request-transform.ts`)

The `TransformStream` of `transformStreamingResponse` is modelled as a fold
over text chunks carrying the partial-line buffer; `TextDecoder`/
`TextEncoder` round-trips are elided (chunks are strings).
-/

/-- Processing of one complete line inside the `transform` callback. -/
def processLine (line : String) : String :=
  if JsString.jsTrim line = "" then "\n"
  else if !JsString.jsStartsWith line "data: " then line ++ "\n"
  else
    let dataStr := JsString.jsTrim (JsString.jsDrop line 6)
    if dataStr = "" ∨ dataStr = "[DONE]" then line ++ "\n"
    else
      match parseJson dataStr with
      | some data =>
          -- `const unwrapped = data.response || data`
          let unwrapped :=
            match data.getField "response" with
            | some v => if v.truthy then v else data
            | none => data
          "data: " ++ stringify unwrapped ++ "\n"
      | none => line ++ "\n"

/-- One `transform(chunk)` call: append to the buffer, split on `\n`, keep
the trailing incomplete line buffered, emit the processed complete lines. -/
def transformChunk (buffer chunk : String) : String × String :=
  let lines := (JsString.splitOnChar '\n' (buffer ++ chunk).toList).map String.mk
  let newBuffer := lines.getLast?.getD ""
  (newBuffer, String.join ((lines.dropLast).map processLine))

/-- The `flush` callback: emit leftover buffered content when non-blank. -/
def flushBuffer (buffer : String) : String :=
  if JsString.jsTrim buffer = "" then "" else buffer ++ "\n"

/-- End-to-end output of `transformStreamingResponse` on a chunked stream. -/
def transformStreamingResponse (chunks : List String) : String :=
  let folded := chunks.foldl
    (fun (acc : String × String) chunk =>
      let step := transformChunk acc.1 chunk
      (step.1, acc.2 ++ step.2))
    ("", "")
  folded.2 ++ flushBuffer folded.1

/-- Body rewriting of `transformNonStreamingResponse`: unwrap the envelope
when the payload parses, otherwise return the original text. -/
def transformNonStreamingResponse (text : String) : String :=
  match parseJson text with
  | some data =>
      -- `const unwrapped = data.response || data`
      let unwrapped :=
        match data.getField "response" with
        | some v => if v.truthy then v else data
        | none => data
      stringify unwrapped
  | none => text

end Transform

namespace Quota

/-!
## Quota reporter (`quota.ts`)

The two network calls are modelled by their outcomes: the tier lookup as
`Option LoadProjectResponse` (`none` models a network/HTTP/parse failure —
every failure path of `fetchSubscriptionTier` returns `undefined`), the
quota call as `Except` (a non-OK response throws).  `localeCompare`-based
sorting is modelled with the code-unit order on strings.
-/

/-- `interface Tier` -/
structure Tier where
  id : Option String := none
  quotaTier : Option String := none
  name : Option String := none
  slug : Option String := none
deriving DecidableEq, Repr

/-- `interface LoadProjectResponse` -/
structure LoadProjectResponse where
  cloudaicompanionProject : Option String := none
  currentTier : Option Tier := none
  paidTier : Option Tier := none
deriving DecidableEq, Repr

/-- `type SubscriptionTier = 'ULTRA' | 'PRO' | 'FREE' | 'UNKNOWN'` — a
closed union type. -/
inductive SubscriptionTier where
  | ULTRA
  | PRO
  | FREE
  | UNKNOWN
deriving DecidableEq, Repr

/-- `fetchSubscriptionTier`: on success, prefer `paidTier?.id` over
`currentTier?.id` (`??` semantics) and collapse everything outside
`ULTRA`/`PRO`/`FREE` to `UNKNOWN`; on any failure, `undefined`. -/
def fetchSubscriptionTier (result : Option LoadProjectResponse) :
    Option SubscriptionTier :=
  match result with
  | none => none
  | some data =>
      let tierId := (data.paidTier.bind (·.id)).orElse (fun _ => data.currentTier.bind (·.id))
      if tierId = some "ULTRA" then some .ULTRA
      else if tierId = some "PRO" then some .PRO
      else if tierId = some "FREE" then some .FREE
      else some .UNKNOWN

/-- `interface QuotaInfo` (`remainingFraction` is a JS float, modelled as a
rational). -/
structure QuotaInfo where
  remainingFraction : Option ℚ := none
  resetTime : Option String := none
deriving DecidableEq, Repr

/-- `interface ModelInfo` -/
structure ModelInfo where
  quotaInfo : Option QuotaInfo := none
deriving DecidableEq, Repr

/-- `interface QuotaResponse` — `Object.entries` order of `models`. -/
structure QuotaResponse where
  models : List (String × ModelInfo)
deriving DecidableEq, Repr

/-- `interface ModelQuota` -/
structure ModelQuota where
  name : String
  percentage : Int
  resetTime : String
deriving DecidableEq, Repr

/-- `interface QuotaData` -/
structure QuotaData where
  models : List ModelQuota
  lastUpdated : Nat
  subscriptionTier : Option SubscriptionTier := none
deriving DecidableEq, Repr

/-- `Math.round` (half-up, toward +∞). -/
def jsRound (q : ℚ) : Int := ⌊q + 1 / 2⌋

/-- JS `String.prototype.includes`. -/
def strContains (s sub : String) : Bool := JsString.jsIncludes s sub

/-- `fetchQuota`: the quota call is mandatory (its failure is the thrown
`Quota API error`), the tier lookup is best-effort and lands in
`subscriptionTier` as-is. -/
def fetchQuota (tierResult : Option LoadProjectResponse)
    (quotaResult : Except (Nat × String) QuotaResponse) (now : Nat) :
    Except (Nat × String) QuotaData :=
  -- `Promise.all` can only reject through the quota fetch:
  -- `fetchSubscriptionTier` catches all of its own failures.
  match quotaResult with
  | .error e => .error e
  | .ok data =>
      let models := data.models.filterMap (fun kv =>
        match kv.2.quotaInfo with
        | some qi =>
            if strContains kv.1 "gemini" || strContains kv.1 "claude" then
              some { name := kv.1
                     percentage := jsRound ((qi.remainingFraction.getD 0) * 100)
                     resetTime := qi.resetTime.getD "" : ModelQuota }
            else none
        | none => none)
      let sorted := models.mergeSort (fun a b => decide (a.name ≤ b.name))
      .ok { models := sorted, lastUpdated := now,
            subscriptionTier := fetchSubscriptionTier tierResult }

/-- The collapse the source applies to a backend tier id (claim-level
description of the `if`-chain): only the three known strings survive,
anything else — including an absent id — becomes `UNKNOWN`. -/
def classifyTierId (tierId : Option String) : SubscriptionTier :=
  if tierId = some "ULTRA" then .ULTRA
  else if tierId = some "PRO" then .PRO
  else if tierId = some "FREE" then .FREE
  else .UNKNOWN

end Quota

/-! # Theorems -/

namespace AccountManager

theorem getD_set_self {α : Type} [Inhabited α] (l : List α) (p : Nat) (b : α)
    (hp : p < l.length) : (l.set p b).getD p default = b := by
  simp [List.getD_eq_getElem?_getD, List.getElem?_set_self, hp]

theorem getD_set_ne {α : Type} [Inhabited α] (l : List α) (p i : Nat) (b : α)
    (h : p ≠ i) : (l.set p b).getD i default = l.getD i default := by
  simp [List.getD_eq_getElem?_getD, List.getElem?_set_ne h]

theorem getD_map_clear (l : List ManagedAccount) (now i : Nat) (hi : i < l.length) :
    (l.map (clearExpiredRateLimits now)).getD i default =
      clearExpiredRateLimits now (l.getD i default) := by
  simp [List.getD_eq_getElem?_getD, List.getElem?_map, List.getElem?_eq_getElem hi]

/-- Reading a quota key after lazy expiry. -/
theorem get_clear (a : ManagedAccount) (now : Nat) (k : QuotaKey) :
    (clearExpiredRateLimits now a).rateLimitResetTimes.get k =
      clearExpiredEntry now (a.rateLimitResetTimes.get k) := by
  cases k <;> rfl

/-- Lazy expiry does not change the verdict of `isRateLimitedForQuotaKey`
at the same instant. -/
theorem isRateLimitedForQuotaKey_clear (a : ManagedAccount) (k : QuotaKey) (now : Nat) :
    isRateLimitedForQuotaKey (clearExpiredRateLimits now a) k now =
      isRateLimitedForQuotaKey a k now := by
  unfold isRateLimitedForQuotaKey
  rw [get_clear]
  cases h : a.rateLimitResetTimes.get k with
  | none => rfl
  | some t =>
      simp only [clearExpiredEntry]
      split_ifs with ht
      · simp
        omega
      · rfl

/-- Lazy expiry does not change the verdict of `isRateLimitedForFamily`. -/
theorem isRateLimitedForFamily_clear (a : ManagedAccount) (family : ModelFamily) (now : Nat) :
    isRateLimitedForFamily (clearExpiredRateLimits now a) family now =
      isRateLimitedForFamily a family now := by
  cases family <;> simp [isRateLimitedForFamily, isRateLimitedForQuotaKey_clear]

/-- Fields other than `rateLimitResetTimes` never matter for the rate-limit
verdict. -/
theorem isRateLimitedForFamily_congr (a b : ManagedAccount) (family : ModelFamily) (now : Nat)
    (h : a.rateLimitResetTimes = b.rateLimitResetTimes) :
    isRateLimitedForFamily a family now = isRateLimitedForFamily b family now := by
  cases family <;> simp [isRateLimitedForFamily, isRateLimitedForQuotaKey, h]

theorem mem_availablePositions (accounts : List ManagedAccount) (family : ModelFamily)
    (now i : Nat) :
    i ∈ availablePositions accounts family now ↔
      i < accounts.length ∧
        isRateLimitedForFamily (accounts.getD i default) family now = false := by
  simp [availablePositions, List.mem_filter, List.mem_range]

theorem availablePositions_congr (l₁ l₂ : List ManagedAccount) (family : ModelFamily)
    (now : Nat) (hlen : l₁.length = l₂.length)
    (h : ∀ i, i < l₁.length →
      isRateLimitedForFamily (l₁.getD i default) family now =
        isRateLimitedForFamily (l₂.getD i default) family now) :
    availablePositions l₁ family now = availablePositions l₂ family now := by
  unfold availablePositions
  rw [hlen]
  apply List.filter_congr
  intro i hi
  have hi' : i < l₁.length := hlen ▸ List.mem_range.1 hi
  rw [h i hi']

theorem availablePositions_map_clear (accounts : List ManagedAccount) (family : ModelFamily)
    (now : Nat) :
    availablePositions (accounts.map (clearExpiredRateLimits now)) family now =
      availablePositions accounts family now := by
  apply availablePositions_congr
  · simp
  · intro i hi
    have hi' : i < accounts.length := by simpa using hi
    rw [getD_map_clear _ _ _ hi', isRateLimitedForFamily_clear]

theorem all_iff_getD (l : List ManagedAccount) (P : ManagedAccount → Bool) :
    (∀ a ∈ l, P a = true) ↔ (∀ i, i < l.length → P (l.getD i default) = true) := by
  constructor
  · intro h i hi
    have hg : l.getD i default = l[i] := by
      simp [List.getD_eq_getElem?_getD, List.getElem?_eq_getElem hi]
    rw [hg]
    exact h _ (List.getElem_mem hi)
  · intro h a ha
    obtain ⟨i, hi, rfl⟩ := List.mem_iff_getElem.1 ha
    have hg : l.getD i default = l[i] := by
      simp [List.getD_eq_getElem?_getD, List.getElem?_eq_getElem hi]
    rw [← hg]
    exact h i hi

theorem all_mem_iff_getD (l : List ManagedAccount) (P : ManagedAccount → Prop) :
    (∀ a ∈ l, P a) ↔ (∀ i, i < l.length → P (l.getD i default)) := by
  constructor
  · intro h i hi
    have hg : l.getD i default = l[i] := by
      simp [List.getD_eq_getElem?_getD, List.getElem?_eq_getElem hi]
    rw [hg]
    exact h _ (List.getElem_mem hi)
  · intro h a ha
    obtain ⟨i, hi, rfl⟩ := List.mem_iff_getElem.1 ha
    have hg : l.getD i default = l[i] := by
      simp [List.getD_eq_getElem?_getD, List.getElem?_eq_getElem hi]
    rw [← hg]
    exact h i hi

theorem availablePositions_eq_nil (accounts : List ManagedAccount) (family : ModelFamily)
    (now : Nat) :
    availablePositions accounts family now = [] ↔
      ∀ a ∈ accounts, isRateLimitedForFamily a family now = true := by
  rw [all_iff_getD]
  unfold availablePositions
  rw [List.filter_eq_nil_iff]
  constructor
  · intro h i hi
    have := h i (List.mem_range.2 hi)
    simpa using this
  · intro h i hi
    have := h i (List.mem_range.1 hi)
    simpa using this

theorem getD_ge {α : Type} [Inhabited α] (l : List α) (i : Nat) (h : l.length ≤ i) :
    l.getD i default = default := by
  simp [List.getD_eq_getElem?_getD, List.getElem?_eq_none h]

theorem getD_of_getElem? {α : Type} [Inhabited α] {l : List α} {i : Nat} {a : α}
    (h : l[i]? = some a) : l.getD i default = a := by
  simp [List.getD_eq_getElem?_getD, h]

/-- Replacing one account with an equally-limited one leaves every
position's rate-limit verdict unchanged. -/
theorem setAccount_preserves_limited (s : MState) (p : Nat) (b : ManagedAccount)
    (family : ModelFamily) (now : Nat)
    (hb : isRateLimitedForFamily b family now =
      isRateLimitedForFamily (s.accounts.getD p default) family now) :
    ∀ i, isRateLimitedForFamily ((s.setAccount p b).accounts.getD i default) family now =
      isRateLimitedForFamily (s.accounts.getD i default) family now := by
  intro i
  show isRateLimitedForFamily ((s.accounts.set p b).getD i default) family now = _
  by_cases hip : p = i
  · subst hip
    by_cases hp : p < s.accounts.length
    · rw [getD_set_self _ _ _ hp, hb]
    · push_neg at hp
      rw [getD_ge _ _ (by simpa using hp), getD_ge _ _ hp]
  · rw [getD_set_ne _ _ _ _ hip]

theorem setAccount_length (s : MState) (p : Nat) (b : ManagedAccount) :
    (s.setAccount p b).accounts.length = s.accounts.length := by
  simp [MState.setAccount]

/-- The position `getNextForFamily` picks from a non-empty candidate list. -/
theorem getNextForFamily_pick (s : MState) (family : ModelFamily) (now : Nat)
    (h : availablePositions s.accounts family now ≠ []) :
    (availablePositions s.accounts family now).getD
        (s.cursor % (availablePositions s.accounts family now).length) 0 ∈
      availablePositions s.accounts family now := by
  have hlen : 0 < (availablePositions s.accounts family now).length :=
    List.length_pos.2 h
  have hmod : s.cursor % (availablePositions s.accounts family now).length <
      (availablePositions s.accounts family now).length := Nat.mod_lt _ hlen
  rw [List.getD_eq_getElem?_getD, List.getElem?_eq_getElem hmod]
  exact List.getElem_mem hmod

/-- Evaluation of `getNextForFamily` when no account survives the filter. -/
theorem getNextForFamily_eq_pos (s : MState) (family : ModelFamily) (now : Nat)
    (h0 : (availablePositions (s.accounts.map (clearExpiredRateLimits now)) family now).length
      = 0) :
    getNextForFamily s family now =
      (none, { s with accounts := s.accounts.map (clearExpiredRateLimits now) }) := by
  simp only [getNextForFamily]
  rw [if_pos h0]

/-- Evaluation of `getNextForFamily` when the candidate list is non-empty. -/
theorem getNextForFamily_eq_neg (s : MState) (family : ModelFamily) (now : Nat)
    (h0 : ¬ (availablePositions (s.accounts.map (clearExpiredRateLimits now)) family now).length
      = 0) :
    getNextForFamily s family now =
      (some ((availablePositions (s.accounts.map (clearExpiredRateLimits now)) family now).getD
          (s.cursor %
            (availablePositions (s.accounts.map (clearExpiredRateLimits now)) family
              now).length) 0),
        ({ s with
            accounts := s.accounts.map (clearExpiredRateLimits now)
            cursor := s.cursor + 1 } : MState).setAccount
          ((availablePositions (s.accounts.map (clearExpiredRateLimits now)) family now).getD
            (s.cursor %
              (availablePositions (s.accounts.map (clearExpiredRateLimits now)) family
                now).length) 0)
          { (s.accounts.map (clearExpiredRateLimits now)).getD
              ((availablePositions (s.accounts.map (clearExpiredRateLimits now)) family
                  now).getD
                (s.cursor %
                  (availablePositions (s.accounts.map (clearExpiredRateLimits now)) family
                    now).length) 0) default
            with lastUsed := now }) := by
  simp only [getNextForFamily]
  rw [if_neg h0]

/-- Lazy expiry of the whole pool preserves every verdict. -/
theorem map_clear_limited (s : MState) (family : ModelFamily) (now : Nat) :
    ∀ i, isRateLimitedForFamily ((s.accounts.map (clearExpiredRateLimits now)).getD i default)
        family now = isRateLimitedForFamily (s.accounts.getD i default) family now := by
  intro i
  by_cases hi : i < s.accounts.length
  · rw [getD_map_clear _ _ _ hi, isRateLimitedForFamily_clear]
  · push_neg at hi
    rw [getD_ge _ _ (by simpa using hi), getD_ge _ _ hi]

theorem getNextForFamily_none_iff (s : MState) (family : ModelFamily) (now : Nat) :
    (getNextForFamily s family now).1 = none ↔
      ∀ a ∈ s.accounts, isRateLimitedForFamily a family now = true := by
  by_cases h0 : (availablePositions (s.accounts.map (clearExpiredRateLimits now)) family
      now).length = 0
  · rw [getNextForFamily_eq_pos s family now h0]
    rw [availablePositions_map_clear, List.length_eq_zero] at h0
    exact iff_of_true rfl ((availablePositions_eq_nil ..).1 h0)
  · rw [getNextForFamily_eq_neg s family now h0]
    rw [availablePositions_map_clear] at h0
    constructor
    · intro h
      exact absurd h (by simp)
    · intro hall
      exact absurd (by rw [(availablePositions_eq_nil s.accounts family now).2 hall]; rfl :
        (availablePositions s.accounts family now).length = 0) h0

theorem getNextForFamily_some (s : MState) (family : ModelFamily) (now : Nat) (p : Nat)
    (h : (getNextForFamily s family now).1 = some p) :
    p < s.accounts.length ∧
      isRateLimitedForFamily (s.accounts.getD p default) family now = false := by
  by_cases h0 : (availablePositions (s.accounts.map (clearExpiredRateLimits now)) family
      now).length = 0
  · rw [getNextForFamily_eq_pos s family now h0] at h
    exact absurd h (by simp)
  · rw [getNextForFamily_eq_neg s family now h0] at h
    rw [availablePositions_map_clear] at h h0
    have hne : availablePositions s.accounts family now ≠ [] := by
      intro he
      rw [he] at h0
      exact h0 rfl
    have hp : (availablePositions s.accounts family now).getD
        (s.cursor % (availablePositions s.accounts family now).length) 0 = p := by
      simpa using h
    have hmem := getNextForFamily_pick s family now hne
    rw [hp] at hmem
    exact (mem_availablePositions ..).1 hmem

theorem getNextForFamily_preserves (s : MState) (family : ModelFamily) (now : Nat) :
    (getNextForFamily s family now).2.accounts.length = s.accounts.length ∧
    ∀ i, isRateLimitedForFamily ((getNextForFamily s family now).2.accounts.getD i default)
        family now = isRateLimitedForFamily (s.accounts.getD i default) family now := by
  by_cases h0 : (availablePositions (s.accounts.map (clearExpiredRateLimits now)) family
      now).length = 0
  · rw [getNextForFamily_eq_pos s family now h0]
    exact ⟨by simp, map_clear_limited s family now⟩
  · rw [getNextForFamily_eq_neg s family now h0]
    constructor
    · show (List.set _ _ _).length = _
      simp
    · intro i
      refine (setAccount_preserves_limited _ _ _ family now ?_ i).trans
        (map_clear_limited s family now i)
      exact isRateLimitedForFamily_congr _ _ family now rfl

theorem setCurrentIndex_accounts (s : MState) (family : ModelFamily) (v : Int) :
    (s.setCurrentIndex family v).accounts = s.accounts := by
  cases family <;> rfl

theorem rotateForFamily_fst (s : MState) (family : ModelFamily) (now : Nat) :
    (rotateForFamily s family now).1 = (getNextForFamily s family now).1 := by
  rcases h : getNextForFamily s family now with ⟨fst, s'⟩
  simp only [rotateForFamily, h]
  cases fst <;> rfl

theorem rotateForFamily_none_iff (s : MState) (family : ModelFamily) (now : Nat) :
    (rotateForFamily s family now).1 = none ↔
      ∀ a ∈ s.accounts, isRateLimitedForFamily a family now = true := by
  rw [rotateForFamily_fst]
  exact getNextForFamily_none_iff s family now

theorem rotateForFamily_some (s : MState) (family : ModelFamily) (now : Nat) (p : Nat)
    (h : (rotateForFamily s family now).1 = some p) :
    p < s.accounts.length ∧
      isRateLimitedForFamily (s.accounts.getD p default) family now = false := by
  rw [rotateForFamily_fst] at h
  exact getNextForFamily_some s family now p h

theorem rotateForFamily_preserves (s : MState) (family : ModelFamily) (now : Nat) :
    (rotateForFamily s family now).2.accounts.length = s.accounts.length ∧
    ∀ i, isRateLimitedForFamily ((rotateForFamily s family now).2.accounts.getD i default)
        family now = isRateLimitedForFamily (s.accounts.getD i default) family now := by
  rcases h : getNextForFamily s family now with ⟨fst, s'⟩
  have hpres := getNextForFamily_preserves s family now
  rw [h] at hpres
  cases fst with
  | none =>
      simp only [rotateForFamily, h]
      exact hpres
  | some p =>
      simp only [rotateForFamily, h]
      constructor
      · rw [setCurrentIndex_accounts]
        show (List.set _ _ _).length = _
        simpa using hpres.1
      · intro i
        rw [setCurrentIndex_accounts]
        refine (setAccount_preserves_limited s' p _ family now ?_ i).trans (hpres.2 i)
        exact isRateLimitedForFamily_congr _ _ family now rfl

theorem mem_of_getElem? {α : Type} {l : List α} {i : Nat} {a : α} (h : l[i]? = some a) :
    a ∈ l := by
  obtain ⟨hlt, he⟩ := List.getElem?_eq_some.1 h
  exact he ▸ List.getElem_mem hlt

theorem getCurrentAccountForFamily_lt (s : MState) (family : ModelFamily) (p : Nat)
    (h : getCurrentAccountForFamily s family = some p) : p < s.accounts.length := by
  simp only [getCurrentAccountForFamily] at h
  by_cases hc : 0 ≤ s.currentIndex family ∧ s.currentIndex family < (s.accounts.length : Int)
  · rw [if_pos hc] at h
    have hnat : (s.currentIndex family).toNat = p := by simpa using h
    omega
  · rw [if_neg hc] at h
    exact Option.noConfusion h

/-- All-limited transfers across a limitedness-preserving account update. -/
theorem all_limited_congr (s₁ s₂ : MState) (family : ModelFamily) (now : Nat)
    (hlen : s₁.accounts.length = s₂.accounts.length)
    (hone : ∀ i, isRateLimitedForFamily (s₁.accounts.getD i default) family now =
      isRateLimitedForFamily (s₂.accounts.getD i default) family now) :
    (∀ a ∈ s₁.accounts, isRateLimitedForFamily a family now = true) ↔
      (∀ a ∈ s₂.accounts, isRateLimitedForFamily a family now = true) := by
  rw [all_iff_getD, all_iff_getD]
  constructor
  · intro h i hi
    rw [← hone i]
    exact h i (by rw [hlen]; exact hi)
  · intro h i hi
    rw [hone i]
    exact h i (by rw [← hlen]; exact hi)

theorem acquire_none_iff (s : MState) (family : ModelFamily) (now : Nat) :
    (getCurrentOrNextForFamily s family now).1 = none ↔
      ∀ a ∈ s.accounts, isRateLimitedForFamily a family now = true := by
  rcases hcur : getCurrentAccountForFamily s family with _ | p
  · simp only [getCurrentOrNextForFamily, hcur]
    exact rotateForFamily_none_iff s family now
  · rcases hap : s.accounts[p]? with _ | a
    · simp only [getCurrentOrNextForFamily, hcur, hap]
      exact rotateForFamily_none_iff s family now
    · simp only [getCurrentOrNextForFamily, hcur, hap]
      by_cases hlim :
          isRateLimitedForFamily (clearExpiredRateLimits now a) family now = true
      · rw [if_pos hlim]
        rw [rotateForFamily_none_iff]
        apply all_limited_congr
        · exact setAccount_length ..
        · apply setAccount_preserves_limited
          rw [isRateLimitedForFamily_clear, getD_of_getElem? hap]
      · rw [if_neg hlim]
        constructor
        · intro h
          exact absurd h (by simp)
        · intro hall
          have ha : a ∈ s.accounts := mem_of_getElem? hap
          rw [isRateLimitedForFamily_clear] at hlim
          exact (hlim (hall a ha)).elim

theorem acquire_some (s : MState) (family : ModelFamily) (now : Nat) (p : Nat)
    (h : (getCurrentOrNextForFamily s family now).1 = some p) :
    p < s.accounts.length ∧
      isRateLimitedForFamily (s.accounts.getD p default) family now = false := by
  rcases hcur : getCurrentAccountForFamily s family with _ | q
  · simp only [getCurrentOrNextForFamily, hcur] at h
    exact rotateForFamily_some s family now p h
  · rcases hap : s.accounts[q]? with _ | a
    · simp only [getCurrentOrNextForFamily, hcur, hap] at h
      exact rotateForFamily_some s family now p h
    · simp only [getCurrentOrNextForFamily, hcur, hap] at h
      by_cases hlim :
          isRateLimitedForFamily (clearExpiredRateLimits now a) family now = true
      · rw [if_pos hlim] at h
        have hs := rotateForFamily_some _ family now p h
        have hone := setAccount_preserves_limited s q (clearExpiredRateLimits now a) family now
          (by rw [isRateLimitedForFamily_clear, getD_of_getElem? hap])
        have hlen : (s.setAccount q (clearExpiredRateLimits now a)).accounts.length
            = s.accounts.length := setAccount_length ..
        exact ⟨by rw [← hlen]; exact hs.1, by rw [← hone p]; exact hs.2⟩
      · rw [if_neg hlim] at h
        have hqp : q = p := by simpa using h
        subst hqp
        refine ⟨getCurrentAccountForFamily_lt s family q hcur, ?_⟩
        rw [isRateLimitedForFamily_clear] at hlim
        rw [getD_of_getElem? hap]
        cases hb : isRateLimitedForFamily a family now with
        | false => rfl
        | true => exact absurd hb hlim

theorem acquire_preserves (s : MState) (family : ModelFamily) (now : Nat) :
    (getCurrentOrNextForFamily s family now).2.accounts.length = s.accounts.length ∧
    ∀ i, isRateLimitedForFamily
        ((getCurrentOrNextForFamily s family now).2.accounts.getD i default) family now =
      isRateLimitedForFamily (s.accounts.getD i default) family now := by
  rcases hcur : getCurrentAccountForFamily s family with _ | p
  · simp only [getCurrentOrNextForFamily, hcur]
    exact rotateForFamily_preserves s family now
  · rcases hap : s.accounts[p]? with _ | a
    · simp only [getCurrentOrNextForFamily, hcur, hap]
      exact rotateForFamily_preserves s family now
    · simp only [getCurrentOrNextForFamily, hcur, hap]
      have hp : p < s.accounts.length := getCurrentAccountForFamily_lt s family p hcur
      have hone := setAccount_preserves_limited s p (clearExpiredRateLimits now a) family now
        (by rw [isRateLimitedForFamily_clear, getD_of_getElem? hap])
      have hlen : (s.setAccount p (clearExpiredRateLimits now a)).accounts.length
          = s.accounts.length := setAccount_length ..
      by_cases hlim :
          isRateLimitedForFamily (clearExpiredRateLimits now a) family now = true
      · rw [if_pos hlim]
        have hrot := rotateForFamily_preserves (s.setAccount p (clearExpiredRateLimits now a))
          family now
        exact ⟨hrot.1.trans hlen, fun i => (hrot.2 i).trans (hone i)⟩
      · rw [if_neg hlim]
        refine ⟨(setAccount_length ..).trans hlen, ?_⟩
        intro i
        refine Eq.trans ?_ (hone i)
        apply setAccount_preserves_limited
        have hgd : (s.setAccount p (clearExpiredRateLimits now a)).accounts.getD p default
            = clearExpiredRateLimits now a := by
          show (s.accounts.set p _).getD p default = _
          exact getD_set_self _ _ _ hp
        rw [hgd]
        exact isRateLimitedForFamily_congr _ _ family now rfl

theorem get_set_same (r : RateLimitResetTimes) (k : QuotaKey) (v : Option Nat) :
    (r.set k v).get k = v := by
  cases k <;> rfl

theorem get_set_other (r : RateLimitResetTimes) (k k' : QuotaKey) (v : Option Nat)
    (h : k ≠ k') : (r.set k v).get k' = r.get k' := by
  cases k <;> cases k' <;> first | rfl | exact absurd rfl h

theorem markRateLimited_length (s : MState) (p : Nat) (r : Option Nat) (f : ModelFamily)
    (hs : HeaderStyle) (rt : Option RequestType) (reason : RateLimitReason) (now : Nat) :
    (markRateLimited s p r f hs rt reason now).accounts.length = s.accounts.length := by
  simp [markRateLimited, MState.setAccount]

theorem markRateLimited_getD (s : MState) (p : Nat) (hp : p < s.accounts.length)
    (r : Option Nat) (f : ModelFamily) (hs : HeaderStyle) (rt : Option RequestType)
    (reason : RateLimitReason) (now : Nat) :
    (markRateLimited s p r f hs rt reason now).accounts.getD p default =
      { s.accounts.getD p default with
        rateLimitResetTimes := (s.accounts.getD p default).rateLimitResetTimes.set
          (getQuotaKey f hs rt) (some (now + r.getD (RATE_LIMIT_DEFAULTS reason))) } := by
  simp only [markRateLimited]
  show (s.accounts.set p _).getD p default = _
  exact getD_set_self _ _ _ hp

theorem markRateLimited_getD_ne (s : MState) (p i : Nat) (h : p ≠ i) (r : Option Nat)
    (f : ModelFamily) (hs : HeaderStyle) (rt : Option RequestType) (reason : RateLimitReason)
    (now : Nat) :
    (markRateLimited s p r f hs rt reason now).accounts.getD i default =
      s.accounts.getD i default := by
  simp only [markRateLimited]
  show (s.accounts.set p _).getD i default = _
  exact getD_set_ne _ _ _ _ h

theorem markBothGemini_length (s : MState) (p : Nat) (now : Nat) :
    (markBothGemini s p now).accounts.length = s.accounts.length := by
  unfold markBothGemini
  rw [markRateLimited_length, markRateLimited_length]

theorem markBothGemini_getD_ne (s : MState) (p i : Nat) (h : p ≠ i) (now : Nat) :
    (markBothGemini s p now).accounts.getD i default = s.accounts.getD i default := by
  unfold markBothGemini
  rw [markRateLimited_getD_ne _ _ _ h, markRateLimited_getD_ne _ _ _ h]

theorem getQuotaKey_gemini_anti : getQuotaKey .gemini .antigravity none = .geminiAntigravity :=
  rfl

theorem getQuotaKey_gemini_cli : getQuotaKey .gemini .geminiCli none = .geminiCli := rfl

/-- After `markBothGemini`, the account at `p` is rate-limited for family B
(both keys carry `now + 60000 > now`). -/
theorem markBothGemini_limited (s : MState) (p : Nat) (hp : p < s.accounts.length)
    (now : Nat) :
    isRateLimitedForFamily ((markBothGemini s p now).accounts.getD p default) .gemini now
      = true := by
  have hp1 : p < (markRateLimited s p none .gemini .antigravity none .unknown
      now).accounts.length := by
    rw [markRateLimited_length]
    exact hp
  unfold markBothGemini
  rw [markRateLimited_getD _ _ hp1, markRateLimited_getD _ _ hp]
  simp only [isRateLimitedForFamily, isRateLimitedForQuotaKey, getQuotaKey_gemini_anti,
    getQuotaKey_gemini_cli, get_set_same,
    get_set_other _ .geminiCli .geminiAntigravity _ (by decide)]
  simp only [Option.getD_none, RATE_LIMIT_DEFAULTS, Bool.and_eq_true, decide_eq_true_eq]
  constructor <;> omega

/-- The invariant step for the round-robin experiment. -/
theorem rotationRun_spec (now N : Nat) :
    ∀ (k : Nat) (s : MState) (marked : List Nat),
      s.accounts.length = N →
      (∀ i, i < N →
        (isRateLimitedForFamily (s.accounts.getD i default) .gemini now = true ↔
          i ∈ marked)) →
      marked.Nodup → (∀ j ∈ marked, j < N) → marked.length + k ≤ N →
      (rotationRun k s now).1.length = k ∧
      (rotationRun k s now).1.Nodup ∧
      (∀ p ∈ (rotationRun k s now).1, p < N) ∧
      (∀ p ∈ (rotationRun k s now).1, p ∉ marked) := by
  intro k
  induction k with
  | zero =>
      intro s marked _ _ _ _ _
      exact ⟨rfl, List.nodup_nil, by simp [rotationRun], by simp [rotationRun]⟩
  | succ k ih =>
      intro s marked hlen hinv hnd hbound hcount
      have hex : ∃ i, i < N ∧ i ∉ marked := by
        by_contra hno
        push_neg at hno
        have hsub : Finset.range N ⊆ marked.toFinset := by
          intro i hi
          exact List.mem_toFinset.2 (hno i (Finset.mem_range.1 hi))
        have hcard := Finset.card_le_card hsub
        rw [Finset.card_range] at hcard
        have := marked.toFinset_card_le
        omega
      obtain ⟨i0, hi0, hi0m⟩ := hex
      have hsome : ∃ p, (getCurrentOrNextForFamily s .gemini now).1 = some p := by
        cases hq : (getCurrentOrNextForFamily s .gemini now).1 with
        | some p => exact ⟨p, rfl⟩
        | none =>
            have hall := (acquire_none_iff s .gemini now).1 hq
            rw [all_iff_getD] at hall
            have hlim := hall i0 (by rw [hlen]; exact hi0)
            exact absurd ((hinv i0 hi0).1 hlim) hi0m
      obtain ⟨p, hp⟩ := hsome
      have hps := acquire_some s .gemini now p hp
      have hpN : p < N := hlen ▸ hps.1
      have hpm : p ∉ marked := by
        intro hm
        have := (hinv p hpN).2 hm
        rw [hps.2] at this
        exact Bool.noConfusion this
      have hpres := acquire_preserves s .gemini now
      have hlen1 : (getCurrentOrNextForFamily s .gemini now).2.accounts.length = N :=
        hpres.1.trans hlen
      have hp1 : p < (getCurrentOrNextForFamily s .gemini now).2.accounts.length := by
        rw [hlen1]
        exact hpN
      have hlen2 : (markBothGemini (getCurrentOrNextForFamily s .gemini now).2 p
          now).accounts.length = N := (markBothGemini_length ..).trans hlen1
      have hinv2 : ∀ i, i < N →
          (isRateLimitedForFamily ((markBothGemini (getCurrentOrNextForFamily s .gemini
              now).2 p now).accounts.getD i default) .gemini now = true ↔
            i ∈ p :: marked) := by
        intro i hi
        by_cases hip : i = p
        · subst hip
          rw [markBothGemini_limited _ _ hp1]
          simp
        · rw [markBothGemini_getD_ne _ _ _ (fun he => hip he.symm), hpres.2 i, hinv i hi]
          simp [List.mem_cons, hip]
      have hstep : rotationRun (k + 1) s now =
          (p :: (rotationRun k (markBothGemini (getCurrentOrNextForFamily s .gemini now).2 p
              now) now).1,
            (rotationRun k (markBothGemini (getCurrentOrNextForFamily s .gemini now).2 p
              now) now).2) := by
        rcases ha : getCurrentOrNextForFamily s .gemini now with ⟨fst, s'⟩
        rw [ha] at hp
        simp only at hp
        subst hp
        simp only [rotationRun, acquireAndMark, ha]
      rw [hstep]
      obtain ⟨ihl, ihnd, ihb, ihdisj⟩ := ih
        (markBothGemini (getCurrentOrNextForFamily s .gemini now).2 p now) (p :: marked)
        hlen2 hinv2 (List.nodup_cons.2 ⟨hpm, hnd⟩)
        (by
          intro j hj
          rcases List.mem_cons.1 hj with hj | hj
          · exact hj ▸ hpN
          · exact hbound j hj)
        (by simp only [List.length_cons]; omega)
      refine ⟨by simp [ihl], ?_, ?_, ?_⟩
      · refine List.nodup_cons.2 ⟨?_, ihnd⟩
        intro hmem
        exact ihdisj p hmem (List.mem_cons_self p marked)
      · intro q hq
        rcases List.mem_cons.1 hq with hq | hq
        · exact hq ▸ hpN
        · exact ihb q hq
      · intro q hq
        rcases List.mem_cons.1 hq with hq | hq
        · exact hq ▸ hpm
        · exact fun hqm => ihdisj q hq (List.mem_cons_of_mem p hqm)

theorem isRateLimitedForQuotaKey_iff (a : ManagedAccount) (k : QuotaKey) (now : Nat) :
    isRateLimitedForQuotaKey a k now = true ↔ styleBlocked a k now := by
  unfold isRateLimitedForQuotaKey styleBlocked
  cases h : a.rateLimitResetTimes.get k <;> simp [h]

theorem getAvailableHeaderStyle_gemini (a : ManagedAccount) (now : Nat) :
    getAvailableHeaderStyle a .gemini now =
      if isRateLimitedForQuotaKey a .geminiAntigravity now = false then some .antigravity
      else if isRateLimitedForQuotaKey a .geminiCli now = false then some .geminiCli
      else none := by
  simp only [getAvailableHeaderStyle, isRateLimitedForQuotaKey_clear]
  cases hA : isRateLimitedForQuotaKey a .geminiAntigravity now <;>
    cases hC : isRateLimitedForQuotaKey a .geminiCli now <;> simp

end AccountManager

namespace Models

theorem takeWhile_append_star (X Y : List Char) (h : '*' ∉ X) :
    (X ++ '*' :: Y).takeWhile (· ≠ '*') = X := by
  induction X with
  | nil => simp [List.takeWhile]
  | cons c cs ih =>
      have hc : c ≠ '*' := fun e => h (e ▸ List.mem_cons_self c cs)
      have hcs : '*' ∉ cs := fun e => h (List.mem_cons_of_mem c e)
      simpa [List.takeWhile, hc] using ih hcs

theorem toList_append (a b : String) : (a ++ b).toList = a.toList ++ b.toList := by
  simp [String.toList, String.data_append]

/-- `wildcardMatch` on a pattern `X*Y` whose prefix part is star-free tests
exactly "starts with `X` and ends with `Y`". -/
theorem wildcardMatch_star (X Y text : String) (h : '*' ∉ X.toList) :
    wildcardMatch (X ++ "*" ++ Y) text =
      (JsString.jsStartsWith text X && JsString.jsEndsWith text Y) := by
  have hstar : ("*" : String).toList = ['*'] := by decide
  have hcs : (X ++ "*" ++ Y).toList = X.toList ++ '*' :: Y.toList := by
    rw [toList_append, toList_append, hstar]
    simp
  simp only [wildcardMatch]
  rw [hcs, takeWhile_append_star _ _ h]
  have hne : ¬ X.toList.length = (X.toList ++ '*' :: Y.toList).length := by
    simp
  rw [if_neg hne]
  have htakeX : (X.toList ++ '*' :: Y.toList).take X.toList.length = X.toList :=
    List.take_left _ _
  have hsplit : X.toList ++ '*' :: Y.toList = (X.toList ++ ['*']) ++ Y.toList := by
    simp
  have hlen1 : X.toList.length + 1 = (X.toList ++ ['*']).length := by simp
  have hdropY : (X.toList ++ '*' :: Y.toList).drop (X.toList.length + 1) = Y.toList := by
    rw [hsplit, hlen1, List.drop_left]
  rw [htakeX, hdropY]
  rfl

/-- `List.find?` over an appended table: if nothing on the left matches,
the right decides. -/
theorem find?_append_of_none {α : Type} (p : α → Bool) (l₁ l₂ : List α)
    (h : ∀ x ∈ l₁, p x = false) : (l₁ ++ l₂).find? p = l₂.find? p := by
  have h1 : l₁.find? p = none := by
    rw [List.find?_eq_none]
    intro x hx
    simp [h x hx]
  simp [List.find?_append, h1]

end Models

/-- C5: `parseDurationString("2h1m30s")` is 7,290,000 ms and
`parseDurationString("0s")` is `undefined` as claimed, but
`parseDurationString("500ms")` is 30,000,000 ms, not 500 ms: the regex's
minutes group greedily consumes `"500m"`, leaving the `ms` group unmatched,
so `"500ms"` is read as 500 minutes — contradicting the function's own doc
comment (`Parse duration string like "2h1m30s", "42s", "500ms"`). -/
theorem C5_parseDurationString_500ms_bug :
    AccountManager.parseDurationString "2h1m30s" = some 7290000 ∧
    AccountManager.parseDurationString "0s" = none ∧
    AccountManager.parseDurationString "500ms" = some 30000000 ∧
    AccountManager.parseDurationString "500ms" ≠ some 500 :=
  ⟨by decide, by decide, by decide, by decide⟩

/-- C2 counterexample: with the custom route table `{"gpt-4" ↦
"custom-target"}`, the table has an exact truthy entry for `"gpt-4"`, yet
`getBaseModelId` resolves `"gpt-4"` through the static catalog to
`"gemini-2.5-flash"` — the custom exact match does NOT win over the static
catalog. -/
theorem C2_counterexample :
    Models.jsLookupTruthy [("gpt-4", "custom-target")] "gpt-4" = some "custom-target" ∧
    Models.getBaseModelId [("gpt-4", "custom-target")] "gpt-4" = "gemini-2.5-flash" ∧
    Models.getBaseModelId [("gpt-4", "custom-target")] "gpt-4" ≠ "custom-target" :=
  ⟨by decide, by decide, by decide⟩

/-- C2 (amended): `getBaseModelId` consults the STATIC catalog first: a
catalog id resolves to its `baseModel` regardless of the custom table, and
only ids absent from the catalog go through `resolveModelRoute`.  Within
`resolveModelRoute` the claimed priority does hold: a truthy exact custom
entry wins, else the first inserted custom wildcard pattern (prefix/suffix
semantics) that matches wins, and only then the static `MODEL_MAPPING`
exact entry is consulted. -/
theorem C2_route_priority :
    (∀ custom modelId m, Models.getModelInfo (Models.stripProvider modelId) = some m →
        Models.getBaseModelId custom modelId = m.baseModel) ∧
    (∀ custom modelId, Models.getModelInfo (Models.stripProvider modelId) = none →
        Models.getBaseModelId custom modelId =
          Models.resolveModelRoute custom (Models.stripProvider modelId)) ∧
    (∀ custom modelId t, Models.jsLookupTruthy custom modelId = some t →
        Models.resolveModelRoute custom modelId = t) ∧
    (∀ (pre post : List (String × String)) (p t modelId : String),
        Models.jsLookupTruthy (pre ++ (p, t) :: post) modelId = none →
        (∀ kv ∈ pre, (kv.1.toList.contains '*' && Models.wildcardMatch kv.1 modelId) = false) →
        p.toList.contains '*' = true → Models.wildcardMatch p modelId = true →
        Models.resolveModelRoute (pre ++ (p, t) :: post) modelId = t) ∧
    (∀ custom modelId, Models.jsLookupTruthy custom modelId = none →
        Models.firstWildcardTarget custom modelId = none →
        Models.resolveModelRoute custom modelId = Models.mapModelToTarget modelId) ∧
    (∀ modelId t, Models.jsLookupTruthy Models.MODEL_MAPPING modelId = some t →
        Models.mapModelToTarget modelId = t) ∧
    (∀ X Y text, '*' ∉ X.toList →
        Models.wildcardMatch (X ++ "*" ++ Y) text =
          (JsString.jsStartsWith text X && JsString.jsEndsWith text Y)) := by
  refine ⟨?_, ?_, ?_, ?_, ?_, ?_, ?_⟩
  · intro custom modelId m hm
    simp only [Models.getBaseModelId, hm]
  · intro custom modelId hm
    simp only [Models.getBaseModelId, hm]
  · intro custom modelId t ht
    simp only [Models.resolveModelRoute, ht]
  · intro pre post p t modelId hnone hpre hstar hmatch
    simp only [Models.resolveModelRoute, hnone]
    have hfw : Models.firstWildcardTarget (pre ++ (p, t) :: post) modelId = some t := by
      unfold Models.firstWildcardTarget
      have hp : (fun kv : String × String =>
          kv.1.toList.contains '*' && Models.wildcardMatch kv.1 modelId) (p, t) = true := by
        simp only [hstar, hmatch, Bool.and_self]
      have hcons := List.find?_cons_of_pos (p := fun kv : String × String =>
        kv.1.toList.contains '*' && Models.wildcardMatch kv.1 modelId) post hp
      rw [Models.find?_append_of_none _ _ _ hpre, hcons]
      rfl
    rw [hfw]
  · intro custom modelId hnone hfw
    simp only [Models.resolveModelRoute, hnone, hfw]
  · intro modelId t ht
    simp only [Models.mapModelToTarget, ht]
  · intro X Y text h
    exact Models.wildcardMatch_star X Y text h

/-- C2 amended witness. -/
theorem C2_route_priority_witness :
    Models.resolveModelRoute [("foo*", "w1"), ("f*", "w2")] "foobar" = "w1" := by
  have h := C2_route_priority
  exact h.2.2.2.1 [] [("f*", "w2")] "foo*" "w1" "foobar" (by decide) (by decide)
    (by decide) (by decide)

namespace Quota

theorem orElse_some {α : Type} (a : α) (f : Unit → Option α) :
    (some a).orElse f = some a := rfl

theorem orElse_none {α : Type} (f : Unit → Option α) :
    (Option.none).orElse f = f () := rfl

end Quota

/-- C9 counterexample: two distinct backend tier strings (`"ENTERPRISE"`,
`"GOLD"`) are both collapsed to the closed-set member `UNKNOWN` — the tier
string is NOT passed through; `SubscriptionTier` is the closed union
`ULTRA | PRO | FREE | UNKNOWN`. -/
theorem C9_counterexample :
    Quota.fetchSubscriptionTier (some { currentTier := some { id := some "ENTERPRISE" } }) =
      some Quota.SubscriptionTier.UNKNOWN ∧
    Quota.fetchSubscriptionTier (some { currentTier := some { id := some "GOLD" } }) =
      some Quota.SubscriptionTier.UNKNOWN ∧
    ("ENTERPRISE" : String) ≠ "GOLD" :=
  ⟨by decide, by decide, by decide⟩

/-- C9 (amended): tier resolution prefers `paidTier.id` over
`currentTier.id`, degrades to an absent tier on lookup failure without
failing `fetchQuota`, but restricts the result to the closed set
`{ULTRA, PRO, FREE, UNKNOWN}`: any backend string outside the three known
ids is collapsed to `UNKNOWN` instead of being passed through. -/
theorem C9_tier_resolution :
    (∀ (data : Quota.LoadProjectResponse) (pt : Quota.Tier) (s : String),
        data.paidTier = some pt → pt.id = some s →
        Quota.fetchSubscriptionTier (some data) = some (Quota.classifyTierId (some s))) ∧
    (∀ (data : Quota.LoadProjectResponse),
        data.paidTier.bind (fun t => t.id) = none →
        Quota.fetchSubscriptionTier (some data) =
          some (Quota.classifyTierId (data.currentTier.bind (fun t => t.id)))) ∧
    Quota.fetchSubscriptionTier none = none ∧
    (∀ s : String, s ≠ "ULTRA" → s ≠ "PRO" → s ≠ "FREE" →
        Quota.classifyTierId (some s) = .UNKNOWN) ∧
    (∀ tier e now, Quota.fetchQuota tier (.error e) now = .error e) ∧
    (∀ (data : Quota.QuotaResponse) (now : Nat), ∃ r,
        Quota.fetchQuota none (.ok data) now = .ok r ∧ r.subscriptionTier = none) := by
  refine ⟨?_, ?_, rfl, ?_, ?_, ?_⟩
  · intro data pt s hpt hid
    simp only [Quota.fetchSubscriptionTier, Quota.classifyTierId, hpt, hid, Option.some_bind,
      Quota.orElse_some]
    split_ifs <;> rfl
  · intro data hnone
    simp only [Quota.fetchSubscriptionTier, Quota.classifyTierId, hnone, Quota.orElse_none]
    split_ifs <;> rfl
  · intro s h1 h2 h3
    simp only [Quota.classifyTierId, Option.some.injEq]
    rw [if_neg h1, if_neg h2, if_neg h3]
  · intro tier e now
    rfl
  · intro data now
    exact ⟨_, rfl, rfl⟩

namespace Transform

/-- A parseable payload is neither the empty string nor the `[DONE]`
sentinel. -/
theorem parse_ok_ne (s : String) (d : Js.Json) (h : Js.parseJson s = some d) :
    s ≠ "" ∧ s ≠ "[DONE]" := by
  constructor
  · intro h0
    subst h0
    have he : Js.parseJson "" = none := rfl
    rw [he] at h
    exact Option.noConfusion h
  · intro h0
    subst h0
    have he : Js.parseJson "[DONE]" = none := rfl
    rw [he] at h
    exact Option.noConfusion h

/-- `processLine` on a non-blank `data: ` line reaches the JSON unwrap
branch. -/
theorem processLine_data (line : String) (hblank : JsString.jsTrim line ≠ "")
    (hstarts : JsString.jsStartsWith line "data: " = true)
    (hne1 : JsString.jsTrim (JsString.jsDrop line 6) ≠ "")
    (hne2 : JsString.jsTrim (JsString.jsDrop line 6) ≠ "[DONE]") :
    Transform.processLine line =
      (match Js.parseJson (JsString.jsTrim (JsString.jsDrop line 6)) with
        | some data => "data: " ++ Js.stringify (match data.getField "response" with
            | some v => if v.truthy then v else data
            | none => data) ++ "\n"
        | none => line ++ "\n") := by
  simp only [Transform.processLine, if_neg hblank, hstarts, Bool.not_true, Bool.false_eq_true,
    if_false]
  rw [if_neg (not_or.mpr ⟨hne1, hne2⟩)]

end Transform

/-- C10: in both unwrappers, a `response` field holding a FALSY value
(`null`, `false`, `0`, `""`) is treated exactly like an absent field: the
whole payload is re-emitted, not the falsy `response` value. -/
theorem C10_falsy_response_passthrough :
    (∀ (text : String) (d v : Js.Json), Js.parseJson text = some d →
        d.getField "response" = some v → v.truthy = false →
        Transform.transformNonStreamingResponse text = Js.stringify d) ∧
    (∀ (text : String) (d : Js.Json), Js.parseJson text = some d →
        d.getField "response" = none →
        Transform.transformNonStreamingResponse text = Js.stringify d) ∧
    (∀ (line : String) (d v : Js.Json), JsString.jsTrim line ≠ "" →
        JsString.jsStartsWith line "data: " = true →
        Js.parseJson (JsString.jsTrim (JsString.jsDrop line 6)) = some d →
        d.getField "response" = some v → v.truthy = false →
        Transform.processLine line = "data: " ++ Js.stringify d ++ "\n") ∧
    (∀ (line : String) (d : Js.Json), JsString.jsTrim line ≠ "" →
        JsString.jsStartsWith line "data: " = true →
        Js.parseJson (JsString.jsTrim (JsString.jsDrop line 6)) = some d →
        d.getField "response" = none →
        Transform.processLine line = "data: " ++ Js.stringify d ++ "\n") := by
  refine ⟨?_, ?_, ?_, ?_⟩
  · intro text d v hparse hfield htruthy
    simp only [Transform.transformNonStreamingResponse, hparse, hfield, htruthy,
      Bool.false_eq_true, if_false]
  · intro text d hparse hfield
    simp only [Transform.transformNonStreamingResponse, hparse, hfield]
  · intro line d v hblank hstarts hparse hfield htruthy
    obtain ⟨hne1, hne2⟩ := Transform.parse_ok_ne _ _ hparse
    rw [Transform.processLine_data line hblank hstarts hne1 hne2, hparse]
    simp only [hfield, htruthy, Bool.false_eq_true, if_false]
  · intro line d hblank hstarts hparse hfield
    obtain ⟨hne1, hne2⟩ := Transform.parse_ok_ne _ _ hparse
    rw [Transform.processLine_data line hblank hstarts hne1 hne2, hparse]
    simp only [hfield]

/-- C10 witness: `{"response":null}` is re-emitted whole by the
non-streaming unwrapper. -/
theorem C10_falsy_response_passthrough_witness :
    Transform.transformNonStreamingResponse "\x7b\"response\":null\x7d" =
      "\x7b\"response\":null\x7d" := by
  have h := C10_falsy_response_passthrough.1 "\x7b\"response\":null\x7d"
    (.obj [("response", .null)]) .null rfl rfl rfl
  exact h.trans (by decide)

/-- C8: streaming unwrap.  The concrete instance
`data: {"response":{"text":"hi"}}\n\n` produces `data: {"text":"hi"}\n\n`;
empty lines keep their newline framing; non-`data: ` lines pass through
unchanged; a data line whose payload parses with a truthy `response` field
is re-emitted as `data: ` plus the serialized `response` sub-field;
unparsable data lines pass through; partial lines are buffered across
chunks and leftover buffered content is flushed (with a trailing newline)
at stream end. -/
theorem C8_streaming_unwrap :
    Transform.transformStreamingResponse
        ["data: \x7b\"response\":\x7b\"text\":\"hi\"\x7d\x7d\n\n"] =
      "data: \x7b\"text\":\"hi\"\x7d\n\n" ∧
    Transform.processLine "" = "\n" ∧
    (∀ line : String, JsString.jsTrim line ≠ "" →
        JsString.jsStartsWith line "data: " = false →
        Transform.processLine line = line ++ "\n") ∧
    (∀ (line : String) (d v : Js.Json), JsString.jsTrim line ≠ "" →
        JsString.jsStartsWith line "data: " = true →
        Js.parseJson (JsString.jsTrim (JsString.jsDrop line 6)) = some d →
        d.getField "response" = some v → v.truthy = true →
        Transform.processLine line = "data: " ++ Js.stringify v ++ "\n") ∧
    (∀ line : String, JsString.jsTrim line ≠ "" →
        JsString.jsStartsWith line "data: " = true →
        JsString.jsTrim (JsString.jsDrop line 6) ≠ "" →
        JsString.jsTrim (JsString.jsDrop line 6) ≠ "[DONE]" →
        Js.parseJson (JsString.jsTrim (JsString.jsDrop line 6)) = none →
        Transform.processLine line = line ++ "\n") ∧
    Transform.transformStreamingResponse ["data: \x7b\"respon", "se\":5\x7d\n"] =
      "data: 5\n" ∧
    Transform.transformStreamingResponse ["data: x"] = "data: x\n" ∧
    (∀ buffer : String, JsString.jsTrim buffer ≠ "" →
        Transform.flushBuffer buffer = buffer ++ "\n") := by
  refine ⟨by decide, by decide, ?_, ?_, ?_, by decide, by decide, ?_⟩
  · intro line hblank hstarts
    simp only [Transform.processLine, if_neg hblank, hstarts, Bool.not_false, if_true]
  · intro line d v hblank hstarts hparse hfield htruthy
    obtain ⟨hne1, hne2⟩ := Transform.parse_ok_ne _ _ hparse
    rw [Transform.processLine_data line hblank hstarts hne1 hne2, hparse]
    simp only [hfield, htruthy, if_true]
  · intro line hblank hstarts hne1 hne2 hparse
    rw [Transform.processLine_data line hblank hstarts hne1 hne2, hparse]
  · intro buffer hb
    simp only [Transform.flushBuffer, if_neg hb]

/-- C8 witness: the general parts applied at concrete lines — a non-data
line passes through, and a data line with a truthy `response` field is
unwrapped. -/
theorem C8_streaming_unwrap_witness :
    Transform.processLine "event: done" = "event: done\n" ∧
    Transform.processLine "data: \x7b\"response\":\x7b\"a\":1\x7d\x7d" =
      "data: \x7b\"a\":1\x7d\n" := by
  have h := C8_streaming_unwrap
  refine ⟨h.2.2.1 "event: done" (by decide) (by decide), ?_⟩
  have h4 := h.2.2.2.1 "data: \x7b\"response\":\x7b\"a\":1\x7d\x7d"
    (.obj [("response", .obj [("a", .num 1)])]) (.obj [("a", .num 1)]) (by decide) (by decide)
    rfl rfl rfl
  exact h4.trans (by decide)

/-- C9 amended witness: with `paidTier.id = "FREE"` and
`currentTier.id = "ULTRA"` present simultaneously, the paid tier wins. -/
theorem C9_tier_resolution_witness :
    Quota.fetchSubscriptionTier
      (some { paidTier := some { id := some "FREE" },
              currentTier := some { id := some "ULTRA" } }) =
      some Quota.SubscriptionTier.FREE := by
  have h := C9_tier_resolution.1
    { paidTier := some { id := some "FREE" }, currentTier := some { id := some "ULTRA" } }
    { id := some "FREE" } "FREE" rfl rfl
  exact h.trans (by decide)

open AccountManager in
/-- C4: `getCurrentOrNextForFamily` returns `null` exactly when every
account in the pool is currently rate-limited for the family (an empty pool
vacuously counts as exhausted); it is total (no exceptions in the
embedding), and whenever it returns an account, that account is within the
pool and not rate-limited for the family. -/
theorem C4_pool_exhaustion (s : MState) (family : ModelFamily) (now : Nat) :
    ((getCurrentOrNextForFamily s family now).1 = none ↔
      ∀ a ∈ s.accounts, isRateLimitedForFamily a family now = true) ∧
    (∀ p, (getCurrentOrNextForFamily s family now).1 = some p →
      p < s.accounts.length ∧
        isRateLimitedForFamily (s.accounts.getD p default) family now = false) :=
  ⟨acquire_none_iff s family now, fun p h => acquire_some s family now p h⟩

/-- C4 witness: a pool with one claude-limited and one free account — the
claude-limited current account is skipped and the free account returned. -/
theorem C4_pool_exhaustion_witness :
    1 < ({ accounts := [{ index := 0, rateLimitResetTimes := { claude := some 2000 } },
          { index := 1 }], currentClaude := 0, currentGemini := 0 } :
        AccountManager.MState).accounts.length ∧
    AccountManager.isRateLimitedForFamily
      (({ accounts := [{ index := 0, rateLimitResetTimes := { claude := some 2000 } },
            { index := 1 }], currentClaude := 0, currentGemini := 0 } :
          AccountManager.MState).accounts.getD 1 default)
      .claude 1000 = false := by
  exact (C4_pool_exhaustion
    { accounts := [{ index := 0, rateLimitResetTimes := { claude := some 2000 } },
        { index := 1 }], currentClaude := 0, currentGemini := 0 } .claude 1000).2 1 (by decide)

open AccountManager in
/-- C1: an account is excluded from family-B selection iff BOTH of its
gemini quota keys hold unexpired reset times: (1) the exclusion predicate
equals both-styles-blocked, (2) the candidate list of `getNextForFamily`
keeps exactly the in-range accounts that are not both-blocked, (3) any
account returned by `getCurrentOrNextForFamily('gemini')` is not
both-blocked, and (4-6) `getAvailableHeaderStyle` returns `antigravity`
whenever that style is free, falls back to `gemini-cli` when only
`antigravity` is blocked, and returns `null` exactly when both are
blocked. -/
theorem C1_familyB_blocking :
    (∀ (a : ManagedAccount) (now : Nat),
        isRateLimitedForFamily a .gemini now = true ↔ bothStylesBlocked a now) ∧
    (∀ (s : MState) (now p : Nat),
        p ∈ availablePositions (s.accounts.map (clearExpiredRateLimits now)) .gemini now ↔
          p < s.accounts.length ∧ ¬ bothStylesBlocked (s.accounts.getD p default) now) ∧
    (∀ (s : MState) (now p : Nat), (getCurrentOrNextForFamily s .gemini now).1 = some p →
        ¬ bothStylesBlocked (s.accounts.getD p default) now) ∧
    (∀ (a : ManagedAccount) (now : Nat), ¬ styleBlocked a .geminiAntigravity now →
        getAvailableHeaderStyle a .gemini now = some .antigravity) ∧
    (∀ (a : ManagedAccount) (now : Nat), styleBlocked a .geminiAntigravity now →
        ¬ styleBlocked a .geminiCli now →
        getAvailableHeaderStyle a .gemini now = some .geminiCli) ∧
    (∀ (a : ManagedAccount) (now : Nat),
        getAvailableHeaderStyle a .gemini now = none ↔ bothStylesBlocked a now) := by
  have hfam : ∀ (a : ManagedAccount) (now : Nat),
      isRateLimitedForFamily a .gemini now = true ↔ bothStylesBlocked a now := by
    intro a now
    unfold isRateLimitedForFamily bothStylesBlocked
    rw [Bool.and_eq_true, isRateLimitedForQuotaKey_iff, isRateLimitedForQuotaKey_iff]
  have hfalse : ∀ (a : ManagedAccount) (now : Nat),
      isRateLimitedForFamily a .gemini now = false ↔ ¬ bothStylesBlocked a now := by
    intro a now
    constructor
    · intro h hb
      rw [(hfam a now).2 hb] at h
      exact Bool.noConfusion h
    · intro h
      cases hb : isRateLimitedForFamily a .gemini now with
      | false => rfl
      | true => exact absurd ((hfam a now).1 hb) h
  refine ⟨hfam, ?_, ?_, ?_, ?_, ?_⟩
  · intro s now p
    rw [availablePositions_map_clear, mem_availablePositions]
    exact and_congr_right (fun _ => hfalse ..)
  · intro s now p h
    exact (hfalse ..).1 (acquire_some s .gemini now p h).2
  · intro a now h
    rw [getAvailableHeaderStyle_gemini]
    rw [if_pos]
    cases hb : isRateLimitedForQuotaKey a .geminiAntigravity now with
    | false => rfl
    | true => exact absurd ((isRateLimitedForQuotaKey_iff ..).1 hb) h
  · intro a now hA hC
    rw [getAvailableHeaderStyle_gemini]
    rw [if_neg, if_pos]
    · cases hb : isRateLimitedForQuotaKey a .geminiCli now with
      | false => rfl
      | true => exact absurd ((isRateLimitedForQuotaKey_iff ..).1 hb) hC
    · rw [(isRateLimitedForQuotaKey_iff ..).2 hA]
      simp
  · intro a now
    rw [getAvailableHeaderStyle_gemini]
    unfold bothStylesBlocked
    rw [← isRateLimitedForQuotaKey_iff, ← isRateLimitedForQuotaKey_iff]
    cases hA : isRateLimitedForQuotaKey a .geminiAntigravity now <;>
      cases hC : isRateLimitedForQuotaKey a .geminiCli now <;> simp

/-- C1 witness: an account blocked on `gemini-antigravity` only still gets
the `gemini-cli` header style. -/
theorem C1_familyB_blocking_witness :
    AccountManager.getAvailableHeaderStyle
      { index := 0, rateLimitResetTimes := { geminiAntigravity := some 2000 } }
      .gemini 1000 = some .geminiCli := by
  exact C1_familyB_blocking.2.2.2.2.1
    { index := 0, rateLimitResetTimes := { geminiAntigravity := some 2000 } } 1000
    ⟨2000, rfl, by omega⟩
    (fun hb => by
      obtain ⟨t, ht, _⟩ := hb
      exact Option.noConfusion ht)

open AccountManager in
/-- C3: starting from any pool of `N` accounts none of which is
rate-limited for family B, `N` consecutive `getCurrentOrNextForFamily
('gemini')` acquisitions — each immediately followed by marking the
returned account rate-limited on both header-style keys — return `N`
pairwise-distinct in-range accounts, i.e. each account is visited exactly
once. -/
theorem C3_round_robin (s : MState) (now N : Nat) (hN : s.accounts.length = N)
    (hfree : ∀ a ∈ s.accounts, isRateLimitedForFamily a .gemini now = false) :
    (rotationRun N s now).1.length = N ∧ (rotationRun N s now).1.Nodup ∧
      ∀ p ∈ (rotationRun N s now).1, p < N := by
  have h := rotationRun_spec now N N s [] hN
    (by
      intro i hi
      constructor
      · intro hl
        rw [(all_mem_iff_getD s.accounts
          (fun a => isRateLimitedForFamily a .gemini now = false)).1 hfree i
          (by rw [hN]; exact hi)] at hl
        exact Bool.noConfusion hl
      · intro hm
        exact absurd hm (List.not_mem_nil i))
    List.nodup_nil (by simp) (by simp)
  exact ⟨h.1, h.2.1, h.2.2.1⟩

/-- C3 witness: a concrete three-account pool, all unblocked, visited
exactly once each over three acquire-and-mark rounds. -/
theorem C3_round_robin_witness :
    (AccountManager.rotationRun 3
      { accounts := [{ index := 0 }, { index := 1 }, { index := 2 }],
        currentClaude := 0, currentGemini := 0 } 1000).1.length = 3 ∧
    (AccountManager.rotationRun 3
      { accounts := [{ index := 0 }, { index := 1 }, { index := 2 }],
        currentClaude := 0, currentGemini := 0 } 1000).1.Nodup ∧
    ∀ p ∈ (AccountManager.rotationRun 3
      { accounts := [{ index := 0 }, { index := 1 }, { index := 2 }],
        currentClaude := 0, currentGemini := 0 } 1000).1, p < 3 :=
  C3_round_robin
    { accounts := [{ index := 0 }, { index := 1 }, { index := 2 }],
      currentClaude := 0, currentGemini := 0 } 1000 3 rfl (by decide)

/-- C6 counterexample: in a two-account pool where account 0 is limited on
`gemini-antigravity` until 6000 and account 1 has NO recorded rate limit at
all, `getMinWaitTime('gemini')` at `now = 1000` is 5000, not 0 — an account
with no recorded limit contributes NOTHING to the minimum (it is skipped),
it does not contribute a zero wait. -/
theorem C6_counterexample :
    ({ index := 1 } : AccountManager.ManagedAccount).rateLimitResetTimes = {} ∧
    AccountManager.getMinWaitTime
      { accounts := [{ index := 0, rateLimitResetTimes := { geminiAntigravity := some 6000 } },
          { index := 1 }] }
      .gemini 1000 = 5000 ∧
    AccountManager.getMinWaitTime
      { accounts := [{ index := 0, rateLimitResetTimes := { geminiAntigravity := some 6000 } },
          { index := 1 }] }
      .gemini 1000 ≠ 0 :=
  ⟨rfl, by decide, by decide⟩

open AccountManager in
/-- C6 (amended): a family-B account's per-account wait is the MIN of its
recorded key waits — both keys recorded gives the min of the two, a single
recorded key alone determines the wait, and an account with NO recorded
key for the family is skipped entirely rather than contributing zero.
`getMinWaitTime` is exactly the minimum of the recorded per-account waits:
it is 0 when no account recorded anything, and whenever any account has a
recorded wait the result is a lower bound of all recorded waits AND is
itself attained by some account's recorded wait — in particular the result
is 0 only when no account has a recorded key or some recorded wait is
itself 0. -/
theorem C6_min_wait (s : MState) (family : ModelFamily) (now : Nat) :
    (∀ (a : ManagedAccount) (t1 t2 : Nat),
        a.rateLimitResetTimes.geminiAntigravity = some t1 →
        a.rateLimitResetTimes.geminiCli = some t2 →
        accountWait a .gemini now = some (min (t1 - now) (t2 - now))) ∧
    (∀ (a : ManagedAccount) (t1 : Nat),
        a.rateLimitResetTimes.geminiAntigravity = some t1 →
        a.rateLimitResetTimes.geminiCli = none →
        accountWait a .gemini now = some (t1 - now)) ∧
    (∀ (a : ManagedAccount) (t2 : Nat),
        a.rateLimitResetTimes.geminiAntigravity = none →
        a.rateLimitResetTimes.geminiCli = some t2 →
        accountWait a .gemini now = some (t2 - now)) ∧
    (∀ a : ManagedAccount, a.rateLimitResetTimes.geminiAntigravity = none →
        a.rateLimitResetTimes.geminiCli = none → accountWait a .gemini now = none) ∧
    ((∀ a ∈ s.accounts, accountWait a family now = none) →
        getMinWaitTime s family now = 0) ∧
    (∀ w (a : ManagedAccount), a ∈ s.accounts → accountWait a family now = some w →
        getMinWaitTime s family now ≤ w ∧
        ∃ b ∈ s.accounts,
          accountWait b family now = some (getMinWaitTime s family now)) ∧
    (getMinWaitTime s family now = 0 →
        (∀ a ∈ s.accounts, accountWait a family now = none) ∨
        ∃ a ∈ s.accounts, accountWait a family now = some 0) := by
  refine ⟨?_, ?_, ?_, ?_, ?_, ?_, ?_⟩
  · intro a t1 t2 h1 h2
    simp only [accountWait, h1, h2, Option.map_some']
  · intro a t1 h1 h2
    simp only [accountWait, h1, h2, Option.map_some', Option.map_none']
  · intro a t2 h1 h2
    simp only [accountWait, h1, h2, Option.map_some', Option.map_none']
  · intro a h1 h2
    simp only [accountWait, h1, h2, Option.map_none']
  · intro h
    unfold getMinWaitTime
    have : s.accounts.filterMap (fun a => accountWait a family now) = [] :=
      List.filterMap_eq_nil_iff.2 h
    rw [this]
    rfl
  · intro w a ha hw
    have hmem : w ∈ s.accounts.filterMap (fun a => accountWait a family now) :=
      List.mem_filterMap.2 ⟨a, ha, hw⟩
    simp only [getMinWaitTime]
    cases hm : (s.accounts.filterMap (fun a => accountWait a family now)).min? with
    | none =>
        rw [List.min?_eq_none_iff] at hm
        rw [hm] at hmem
        exact absurd hmem (List.not_mem_nil w)
    | some m =>
        constructor
        · have hle := (List.le_min?_iff (fun a b c => Nat.le_min) hm).1 (Nat.le_refl m)
          exact hle w hmem
        · have hmem2 := List.min?_mem (fun a b => min_choice a b) hm
          obtain ⟨b, hb, hbw⟩ := List.mem_filterMap.1 hmem2
          exact ⟨b, hb, hbw⟩
  · simp only [getMinWaitTime]
    cases hm : (s.accounts.filterMap (fun a => accountWait a family now)).min? with
    | none =>
        intro _
        exact Or.inl (List.filterMap_eq_nil_iff.1 (List.min?_eq_none_iff.1 hm))
    | some m =>
        intro h0
        have hm0 : m = 0 := h0
        have hmem := List.min?_mem (fun a b => min_choice a b) hm
        obtain ⟨a, ha, haw⟩ := List.mem_filterMap.1 hmem
        rw [hm0] at haw
        exact Or.inr ⟨a, ha, haw⟩

/-- C6 amended witness: both keys recorded gives the min of the two key
waits, a single recorded key alone determines the wait, and on a concrete
pool the minimum is both a lower bound of the recorded wait and attained
by an account. -/
theorem C6_min_wait_witness :
    AccountManager.accountWait
      { index := 0, rateLimitResetTimes := { geminiAntigravity := some 6000, geminiCli := some 3000 } }
      .gemini 1000 = some 2000 ∧
    AccountManager.accountWait
      { index := 0, rateLimitResetTimes := { geminiAntigravity := some 6000 } }
      .gemini 1000 = some 5000 ∧
    (AccountManager.getMinWaitTime
        { accounts := [{ index := 0, rateLimitResetTimes := { geminiAntigravity := some 6000 } }] }
        .gemini 1000 ≤ 5000 ∧
      ∃ b ∈ ({ accounts := [{ index := 0, rateLimitResetTimes := { geminiAntigravity := some 6000 } }] } :
          AccountManager.MState).accounts,
        AccountManager.accountWait b .gemini 1000 =
          some (AccountManager.getMinWaitTime
            { accounts := [{ index := 0, rateLimitResetTimes := { geminiAntigravity := some 6000 } }] }
            .gemini 1000)) := by
  refine ⟨?_, ?_, ?_⟩
  · have h := (C6_min_wait { accounts := [] } .gemini 1000).1
      { index := 0, rateLimitResetTimes := { geminiAntigravity := some 6000, geminiCli := some 3000 } }
      6000 3000 rfl rfl
    exact h.trans (by decide)
  · have h := (C6_min_wait { accounts := [] } .gemini 1000).2.1
      { index := 0, rateLimitResetTimes := { geminiAntigravity := some 6000 } } 6000 rfl rfl
    exact h.trans (by decide)
  · exact (C6_min_wait
      { accounts := [{ index := 0, rateLimitResetTimes := { geminiAntigravity := some 6000 } }] }
      .gemini 1000).2.2.2.2.2.1
      5000 { index := 0, rateLimitResetTimes := { geminiAntigravity := some 6000 } }
      (by decide) (by decide)

namespace AccountManager

/-- Evaluation of `removeAccount` on an in-range index leaving a non-empty
pool. -/
theorem removeAccount_eq_inrange (s : MState) (index : Int)
    (h0 : ¬(index < 0 ∨ (s.accounts.length : Int) ≤ index))
    (h1 : ¬(((s.accounts.eraseIdx index.toNat).mapIdx
      (fun i a => { a with index := i })).length = 0)) :
    removeAccount s index = (true,
      { accounts := (s.accounts.eraseIdx index.toNat).mapIdx (fun i a => { a with index := i })
        cursor := min s.cursor
          (((s.accounts.eraseIdx index.toNat).mapIdx
            (fun i a => { a with index := i })).length - 1)
        currentClaude := min
          (if s.currentClaude ≥ index then max 0 (s.currentClaude - 1) else s.currentClaude)
          ((((s.accounts.eraseIdx index.toNat).mapIdx
            (fun i a => { a with index := i })).length : Int) - 1)
        currentGemini := min
          (if s.currentGemini ≥ index then max 0 (s.currentGemini - 1) else s.currentGemini)
          ((((s.accounts.eraseIdx index.toNat).mapIdx
            (fun i a => { a with index := i })).length : Int) - 1) }) := by
  simp only [removeAccount]
  rw [if_neg h0, if_neg h1]

/-- Evaluation of `removeAccount` when the removal empties the pool. -/
theorem removeAccount_eq_empty (s : MState) (index : Int)
    (h0 : ¬(index < 0 ∨ (s.accounts.length : Int) ≤ index))
    (h1 : ((s.accounts.eraseIdx index.toNat).mapIdx
      (fun i a => { a with index := i })).length = 0) :
    removeAccount s index = (true,
      { accounts := (s.accounts.eraseIdx index.toNat).mapIdx (fun i a => { a with index := i })
        cursor := 0
        currentClaude := -1
        currentGemini := -1 }) := by
  simp only [removeAccount]
  rw [if_neg h0, if_pos h1]

end AccountManager

open AccountManager in
/-- C7: `removeAccount(index)` returns `false` and leaves the whole state
unchanged when `index` is out of range; in range it removes the account,
re-densifies the remaining `index` fields to `0..N-2`, resets the state
when the pool empties, and otherwise repairs both family pointers
(decrementing a pointer that pointed at or after the removed index,
clamping at 0, and keeping any in-range pointer in bounds) and clamps the
cursor into the new bounds. -/
theorem C7_remove_account (s : MState) (index : Int) :
    ((index < 0 ∨ (s.accounts.length : Int) ≤ index) → removeAccount s index = (false, s)) ∧
    (0 ≤ index → index < (s.accounts.length : Int) →
      (removeAccount s index).1 = true ∧
      (removeAccount s index).2.accounts.length = s.accounts.length - 1 ∧
      (∀ i, i < (removeAccount s index).2.accounts.length →
        ((removeAccount s index).2.accounts.getD i default).index = i) ∧
      (s.accounts.length = 1 →
        (removeAccount s index).2.cursor = 0 ∧
        (removeAccount s index).2.currentClaude = -1 ∧
        (removeAccount s index).2.currentGemini = -1) ∧
      (1 < s.accounts.length →
        (∀ family : ModelFamily,
          ((removeAccount s index).2.currentIndex family =
            min (if s.currentIndex family ≥ index then max 0 (s.currentIndex family - 1)
              else s.currentIndex family) ((s.accounts.length : Int) - 2)) ∧
          (0 ≤ s.currentIndex family → s.currentIndex family < (s.accounts.length : Int) →
            (removeAccount s index).2.currentIndex family =
              (if s.currentIndex family ≥ index then max 0 (s.currentIndex family - 1)
                else s.currentIndex family) ∧
            0 ≤ (removeAccount s index).2.currentIndex family ∧
            (removeAccount s index).2.currentIndex family <
              ((removeAccount s index).2.accounts.length : Int))) ∧
        (removeAccount s index).2.cursor = min s.cursor (s.accounts.length - 2))) := by
  constructor
  · intro h
    simp only [removeAccount]
    rw [if_pos h]
  · intro hge hlt
    have h0 : ¬(index < 0 ∨ (s.accounts.length : Int) ≤ index) := by
      push_neg
      exact ⟨hge, hlt⟩
    have hidx : index.toNat < s.accounts.length := by omega
    have herase : (s.accounts.eraseIdx index.toNat).length = s.accounts.length - 1 :=
      List.length_eraseIdx_of_lt hidx
    have hmaplen : ((s.accounts.eraseIdx index.toNat).mapIdx
        (fun i a => { a with index := i })).length = s.accounts.length - 1 := by
      rw [List.length_mapIdx, herase]
    by_cases hone : s.accounts.length = 1
    · have h1 : ((s.accounts.eraseIdx index.toNat).mapIdx
          (fun i a => { a with index := i })).length = 0 := by
        rw [hmaplen, hone]
      rw [removeAccount_eq_empty s index h0 h1]
      refine ⟨rfl, hmaplen, ?_, fun _ => ⟨rfl, rfl, rfl⟩, fun hcon => absurd hone (by omega)⟩
      intro i hi
      rw [h1] at hi
      exact absurd hi (by omega)
    · have htwo : 1 < s.accounts.length := by omega
      have h1 : ¬ ((s.accounts.eraseIdx index.toNat).mapIdx
          (fun i a => { a with index := i })).length = 0 := by
        rw [hmaplen]
        omega
      rw [removeAccount_eq_inrange s index h0 h1]
      have hcast : ((((s.accounts.eraseIdx index.toNat).mapIdx
          (fun i a => { a with index := i })).length : Int) - 1)
          = (s.accounts.length : Int) - 2 := by
        rw [hmaplen]
        omega
      refine ⟨rfl, hmaplen, ?_, fun hcon => absurd hcon hone, fun _ => ⟨?_, ?_⟩⟩
      · intro i hi
        have hi' : i < (s.accounts.eraseIdx index.toNat).length := by
          rw [herase]
          rw [hmaplen] at hi
          exact hi
        have hi2 : i < ((s.accounts.eraseIdx index.toNat).mapIdx
            (fun i a => { a with index := i })).length := hi
        have hgd : ((s.accounts.eraseIdx index.toNat).mapIdx
            (fun i a => { a with index := i })).getD i default =
            ((s.accounts.eraseIdx index.toNat).mapIdx
              (fun i a => { a with index := i })).get ⟨i, hi2⟩ := by
          simp [List.getD_eq_getElem?_getD, List.getElem?_eq_getElem hi2, List.get_eq_getElem]
        rw [hgd, List.get_mapIdx _ _ i hi']
      · have hptr : ∀ ptr : Int, 0 ≤ ptr → ptr < (s.accounts.length : Int) →
            min (if ptr ≥ index then max 0 (ptr - 1) else ptr) ((s.accounts.length : Int) - 2)
              = (if ptr ≥ index then max 0 (ptr - 1) else ptr) ∧
            0 ≤ min (if ptr ≥ index then max 0 (ptr - 1) else ptr)
              ((s.accounts.length : Int) - 2) ∧
            min (if ptr ≥ index then max 0 (ptr - 1) else ptr)
              ((s.accounts.length : Int) - 2) < ((s.accounts.length - 1 : Nat) : Int) := by
          intro ptr hp0 hp1
          by_cases hc : ptr ≥ index
          · rw [if_pos hc]
            refine ⟨?_, ?_, ?_⟩ <;> omega
          · rw [if_neg hc]
            refine ⟨?_, ?_, ?_⟩ <;> omega
        intro family
        cases family <;> simp only [MState.currentIndex] <;>
          · constructor
            · show (min _ _ : Int) = _
              rw [hcast]
            · intro hptr0 hptr1
              show _ ∧ _ ∧ (_ < (((List.mapIdx _ _).length : Nat) : Int))
              rw [hcast, hmaplen]
              exact hptr _ hptr0 hptr1
      · show min s.cursor _ = _
        rw [hmaplen]
        have : s.accounts.length - 1 - 1 = s.accounts.length - 2 := by omega
        rw [this]

/-- C7 witness: removing index 1 from a 3-account pool whose claude pointer
is 2 leaves the claude pointer at 1 and the remaining accounts with dense
indices `{0, 1}`. -/
theorem C7_remove_account_witness :
    (AccountManager.removeAccount
      { accounts := [{ index := 0 }, { index := 1 }, { index := 2 }],
        cursor := 0, currentClaude := 2, currentGemini := 0 } 1).1 = true ∧
    (AccountManager.removeAccount
      { accounts := [{ index := 0 }, { index := 1 }, { index := 2 }],
        cursor := 0, currentClaude := 2, currentGemini := 0 } 1).2.currentClaude = 1 ∧
    (AccountManager.removeAccount
      { accounts := [{ index := 0 }, { index := 1 }, { index := 2 }],
        cursor := 0, currentClaude := 2, currentGemini := 0 } 1).2.accounts.length = 2 ∧
    (∀ i, i < (AccountManager.removeAccount
      { accounts := [{ index := 0 }, { index := 1 }, { index := 2 }],
        cursor := 0, currentClaude := 2, currentGemini := 0 } 1).2.accounts.length →
      ((AccountManager.removeAccount
        { accounts := [{ index := 0 }, { index := 1 }, { index := 2 }],
          cursor := 0, currentClaude := 2, currentGemini := 0 } 1).2.accounts.getD i
        default).index = i) := by
  have h := (C7_remove_account
    { accounts := [{ index := 0 }, { index := 1 }, { index := 2 }],
      cursor := 0, currentClaude := 2, currentGemini := 0 } 1).2 (by decide) (by decide)
  refine ⟨h.1, ?_, h.2.1, h.2.2.1⟩
  have hp := (h.2.2.2.2 (by decide)).1 .claude
  exact hp.1.trans (by decide)
